import Mathlib

/-!
# Verification of the lux_bots per-turn decision core

Shallow embedding of the repository's search engines, goal synthesis helpers and
conflict resolver, together with proofs about the properties stated in its
specification.

The repository contains two generations of the search engine:
* `src/search/search.py` (namespace `V2` below): graphs exclude forbidden
  successors inside `get_valid_action_nodes` (hard exclusion).
* `src/agent/search.py` (namespace `V1` below): `Graph.cost` returns `math.inf`
  on a forbidden successor while `get_valid_action_nodes` only checks board
  validity (soft exclusion).

Modules referenced by the sources but absent from the repository snapshot
(`logic/constraints.py`, `objects/board.py`, `objects/direction.py`,
`objects/actions/unit_action.py`, `utils.PriorityQueue`,
`objects/coordinate.ResourcePowerTimeCoordinate`) are modelled from the
specification; each such definition carries a doc comment starting with
`Modelled from the spec:`.
-/

namespace LuxBots

/-- Modelled from the spec: `objects/direction.py` is not in src.  The five move
directions of the Lux grid, "up to 5 directions including wait". -/
inductive Direction
  | center
  | up
  | right
  | down
  | left
deriving DecidableEq, Repr

/-- Modelled from the spec: x-offset of one step in a direction. -/
def Direction.dx : Direction → Int
  | .center => 0
  | .up => 0
  | .right => 1
  | .down => 0
  | .left => -1

/-- Modelled from the spec: y-offset of one step in a direction. -/
def Direction.dy : Direction → Int
  | .center => 0
  | .up => -1
  | .right => 0
  | .down => 1
  | .left => 0

/-- The enumeration order of the `Direction` enum (`for direction in Direction`). -/
def Direction.all : List Direction := [.center, .up, .right, .down, .left]

/-- Modelled from the spec: `objects/resource.py` is not in src. -/
inductive Resource
  | ice
  | ore
  | water
  | metal
  | power
deriving DecidableEq, Repr

/-- Modelled from the spec: `objects/actions/unit_action.py` is not in src.
The primitive unit actions used by the graphs: move, dig, pick up and
transfer.  `dig n` carries the repeat count `n` of Python's `DigAction(n=...)`
(searches emit `DigAction()` with `n = 1`). -/
inductive UnitAction
  | move (dir : Direction)
  | dig (n : Nat)
  | pickup (amount : Int) (resource : Resource)
  | transfer (dir : Direction) (amount : Int) (resource : Resource)
deriving DecidableEq, Repr

/-- Modelled from the spec: the direction the unit itself moves in
(`action.unit_direction`); only move actions displace the unit. -/
def UnitAction.unitDirection : UnitAction → Direction
  | .move d => d
  | .dig _ => .center
  | .pickup _ _ => .center
  | .transfer _ _ _ => .center

/-- Modelled from the spec: the `n` (repeat count) of an action; every action
produced by the searches has `n = 1` except `dig`. -/
def UnitAction.reps : UnitAction → Nat
  | .move _ => 1
  | .dig n => n
  | .pickup _ _ => 1
  | .transfer _ _ _ => 1

/-- Modelled from the spec: `MoveAction.is_stationary` — a center move keeps the
unit in place. -/
def UnitAction.isStationary : UnitAction → Bool
  | .move d => d == .center
  | _ => true

/-- `Coordinate` from `src/objects/coordinate.py`: an (x, y) grid position. -/
structure Coordinate where
  x : Int
  y : Int
deriving DecidableEq, Repr

/-- `Coordinate.distance_to`: Manhattan distance. -/
def dist (a b : Coordinate) : Nat :=
  (a.x - b.x).natAbs + (a.y - b.y).natAbs

/-- `Coordinate.__eq__` (src/objects/coordinate.py lines 14-15): comparison of a
`Coordinate` with any coordinate-like object compares only x and y. -/
def Coordinate.pyEq (a : Coordinate) (x y : Int) : Bool :=
  a.x == x && a.y == y

/-- `TimeCoordinate` from `src/objects/coordinate.py`: position plus turn. -/
structure TimeCoordinate where
  x : Int
  y : Int
  t : Int
deriving DecidableEq, Repr

/-- The spatial projection of a `TimeCoordinate`. -/
def TimeCoordinate.xy (c : TimeCoordinate) : Coordinate := ⟨c.x, c.y⟩

/-- `TimeCoordinate.add_action`: move by the action's direction and advance time
by the action's repeat count. -/
def TimeCoordinate.addAction (c : TimeCoordinate) (a : UnitAction) : TimeCoordinate :=
  ⟨c.x + a.unitDirection.dx * a.reps, c.y + a.unitDirection.dy * a.reps, c.t + a.reps⟩

/-- `DigCoordinate` from `src/objects/coordinate.py`: position plus accumulated
dig count. -/
structure DigCoordinate where
  x : Int
  y : Int
  d : Int
deriving DecidableEq, Repr

/-- `DigCoordinate.__eq__` (src/objects/coordinate.py lines 129-130): compares
exactly x, y and the dig count d of the other coordinate-like object. -/
def DigCoordinate.pyEq (a : DigCoordinate) (x y d : Int) : Bool :=
  a.x == x && a.y == y && a.d == d

/-- `DigTimeCoordinate` from `src/objects/coordinate.py`. -/
structure DigTimeCoordinate where
  x : Int
  y : Int
  t : Int
  d : Int
deriving DecidableEq, Repr

/-- The spatial projection of a `DigTimeCoordinate`. -/
def DigTimeCoordinate.xy (c : DigTimeCoordinate) : Coordinate := ⟨c.x, c.y⟩

/-- The time projection of a `DigTimeCoordinate`. -/
def DigTimeCoordinate.toTC (c : DigTimeCoordinate) : TimeCoordinate := ⟨c.x, c.y, c.t⟩

/-- `DigTimeCoordinate.add_action`: additionally accumulates digs on dig
actions (`_add_get_new_d_action`). -/
def DigTimeCoordinate.addAction (c : DigTimeCoordinate) (a : UnitAction) : DigTimeCoordinate :=
  ⟨c.x + a.unitDirection.dx * a.reps, c.y + a.unitDirection.dy * a.reps, c.t + a.reps,
    c.d + match a with | .dig n => (n : Int) | _ => 0⟩

/-- `PowerTimeCoordinate` from `src/objects/coordinate.py`: position, turn and
accumulated picked-up power p. -/
structure PowerTimeCoordinate where
  x : Int
  y : Int
  t : Int
  p : Int
deriving DecidableEq, Repr

/-- The spatial projection of a `PowerTimeCoordinate`. -/
def PowerTimeCoordinate.xy (c : PowerTimeCoordinate) : Coordinate := ⟨c.x, c.y⟩

/-- The time projection of a `PowerTimeCoordinate`. -/
def PowerTimeCoordinate.toTC (c : PowerTimeCoordinate) : TimeCoordinate := ⟨c.x, c.y, c.t⟩

/-- `PowerTimeCoordinate.add_action`: accumulates `n * amount` power on power
pick-up actions (`_add_get_new_p_action`). -/
def PowerTimeCoordinate.addAction (c : PowerTimeCoordinate) (a : UnitAction) : PowerTimeCoordinate :=
  ⟨c.x + a.unitDirection.dx * a.reps, c.y + a.unitDirection.dy * a.reps, c.t + a.reps,
    c.p + match a with
          | .pickup amount .power => (a.reps : Int) * amount
          | _ => 0⟩

/-- Modelled from the spec: `ResourcePowerTimeCoordinate` is imported by
`src/search/search.py` but missing from `src/objects/coordinate.py`.  Per the
spec's data model it extends the time coordinate with "accumulated
power/resource counter p (or q for transfer countdown)": q increases when power
is picked up (`PickupPowerGraph` finishes once `q > 0`) and decreases when a
resource is transferred away (`TransferResourceGraph` finishes once `q < 0`). -/
structure ResourcePowerTimeCoordinate where
  x : Int
  y : Int
  t : Int
  p : Int
  q : Int
deriving DecidableEq, Repr

/-- The spatial projection of a `ResourcePowerTimeCoordinate`. -/
def ResourcePowerTimeCoordinate.xy (c : ResourcePowerTimeCoordinate) : Coordinate := ⟨c.x, c.y⟩

/-- The time projection of a `ResourcePowerTimeCoordinate`. -/
def ResourcePowerTimeCoordinate.toTC (c : ResourcePowerTimeCoordinate) : TimeCoordinate :=
  ⟨c.x, c.y, c.t⟩

/-- Modelled from the spec: `add_action` for `ResourcePowerTimeCoordinate`,
accumulating power and the pick-up/transfer counter q. -/
def ResourcePowerTimeCoordinate.addAction (c : ResourcePowerTimeCoordinate) (a : UnitAction) :
    ResourcePowerTimeCoordinate :=
  ⟨c.x + a.unitDirection.dx * a.reps, c.y + a.unitDirection.dy * a.reps, c.t + a.reps,
    c.p + match a with
          | .pickup amount .power => (a.reps : Int) * amount
          | _ => 0,
    c.q + match a with
          | .pickup _ .power => (a.reps : Int)
          | .transfer _ _ _ => -(a.reps : Int)
          | _ => 0⟩

/-- Modelled recharge/unit data from the spec's "external
unit-configuration/physics model": per-action power deltas, battery capacity,
per-turn passive charge (`lux/config.py UnitConfig` is not in src). -/
structure UnitConfig where
  MOVE_COST : ℚ
  RUBBLE_MOVEMENT_COST : ℚ
  DIG_COST : ℚ
  BATTERY_CAPACITY : Int
  CARGO_SPACE : Int
  CHARGE : Int
deriving Repr

/-- The `unit_type` string field of the graphs ("LIGHT" / "HEAVY"). -/
inductive UnitType
  | light
  | heavy
deriving DecidableEq, Repr

/-- Modelled from the spec: a factory actor, reduced to the parts the graphs
query (its strain id and its occupied tiles). -/
structure Factory where
  strainId : Int
  tiles : List Coordinate
deriving DecidableEq, Repr

/-- Modelled from the spec: `objects/board.py` is not in src.  The board is
reduced to the tile-level queries the graphs consume: validity for the player,
the player factory tiles, rubble amounts, distance to the nearest opponent
heavy, resource-tile membership, and the per-strain factory tiles. -/
structure Board where
  validForPlayer : Coordinate → Bool
  playerFactoryTiles : List Coordinate
  rubble : Coordinate → ℚ
  minDisToOppHeavy : Coordinate → Nat
  isResourceTile : Coordinate → Bool
  closestPlayerFactory : Coordinate → Factory
  strainTiles : Int → List Coordinate

/-- The tile of `ts` closest to `c` in Manhattan distance (first one on ties);
`c` itself if the list is empty (the sources only ever query boards that have
at least one factory tile). -/
def closestTile (c : Coordinate) : List Coordinate → Coordinate
  | [] => c
  | [f] => f
  | f :: f2 :: fs =>
      let rest := closestTile c (f2 :: fs)
      if dist c f ≤ dist c rest then f else rest

/-- `board.is_player_factory_tile`. -/
def Board.isPlayerFactoryTile (b : Board) (c : Coordinate) : Bool :=
  b.playerFactoryTiles.contains c

/-- `board.get_closest_player_factory_tile`. -/
def Board.closestPlayerFactoryTile (b : Board) (c : Coordinate) : Coordinate :=
  closestTile c b.playerFactoryTiles

/-- `board.get_min_distance_to_any_player_factory`, spelled as the distance to
the closest player factory tile. -/
def Board.minDistanceToAnyPlayerFactory (b : Board) (c : Coordinate) : Nat :=
  dist c (b.closestPlayerFactoryTile c)

/-- `board.get_min_distance_to_player_factory` for a strain id. -/
def Board.minDistanceToPlayerFactory (b : Board) (c : Coordinate) (strainId : Int) : Nat :=
  dist c (closestTile c (b.strainTiles strainId))

/-- Modelled from the spec: `logic/constraints.py` is not in src.  Constraints
hold the "set of forbidden TimeCoordinates (negative constraints), an optional
maximum power request ceiling, an optional time horizon, and a danger-cost
function". -/
structure Constraints where
  negative : List (Int × Int × Int)
  maxPowerRequest : Option Int
  maxT : Option Int
  danger : TimeCoordinate → ℚ

/-- The default `Constraints()`: no forbidden states, no ceilings, no danger. -/
def Constraints.empty : Constraints :=
  ⟨[], none, none, fun _ => 0⟩

/-- `constraints.tc_violates_constraint`: membership of the (x, y, t) triple in
the forbidden set. -/
def Constraints.tcViolatesConstraint (k : Constraints) (tc : TimeCoordinate) : Bool :=
  k.negative.contains (tc.x, tc.y, tc.t)

/-- `constraints.get_danger_cost` (single-argument form used by
`src/search/search.py`). -/
def Constraints.getDangerCost (k : Constraints) (tc : TimeCoordinate) : ℚ :=
  k.danger tc

/-- Modelled from the spec: `constraints.has_time_constraints` — whether any
time-indexed constraint (forbidden state or time horizon) is present. -/
def Constraints.hasTimeConstraints (k : Constraints) : Bool :=
  !k.negative.isEmpty || k.maxT.isSome

/-- Modelled from the spec: Python truthiness of a Constraints instance
(`if not self.constraints`), true when any constraint is registered. -/
def Constraints.isTruthy (k : Constraints) : Bool :=
  k.hasTimeConstraints || k.maxPowerRequest.isSome

/-- Modelled from the spec: `action.get_power_change_by_end_c` of the external
physics model (`objects/actions/unit_action.py` is not in src).  A non-center
move costs the unit's move cost plus the rubble-dependent cost of the target
tile; digging costs the dig cost per repeat; picking up power adds the amount;
transferring power away subtracts it; everything else is power-neutral. -/
def UnitAction.getPowerChangeByEndC (a : UnitAction) (cfg : UnitConfig) (endC : Coordinate)
    (b : Board) : ℚ :=
  match a with
  | .move .center => 0
  | .move _ => -(cfg.MOVE_COST + cfg.RUBBLE_MOVEMENT_COST * b.rubble endC)
  | .dig n => -((n : ℚ) * cfg.DIG_COST)
  | .pickup amount r => if r == .power then (amount : ℚ) else 0
  | .transfer _ amount r => if r == .power then -(amount : ℚ) else 0

/-- `MoveAction.get_move_onto_cost`: the power cost of moving onto a tile. -/
def moveOntoCost (cfg : UnitConfig) (goal : Coordinate) (b : Board) : ℚ :=
  cfg.MOVE_COST + cfg.RUBBLE_MOVEMENT_COST * b.rubble goal

/-- `Graph.get_power_cost` (both generations): clamp the negated power change
at zero. -/
def actionPowerCost (a : UnitAction) (cfg : UnitConfig) (toC : Coordinate) (b : Board) : ℚ :=
  max 0 (-(a.getPowerChangeByEndC cfg toC b))

/-- `Graph._get_base_danger_cost` of `src/search/search.py`: zero for heavies,
tiered for lights near an opponent heavy. -/
def baseDangerCost (unitType : UnitType) (b : Board) (toC : TimeCoordinate) : ℚ :=
  match unitType with
  | .heavy => 0
  | .light =>
      match b.minDisToOppHeavy toC.xy with
      | 0 => 50
      | 1 => 5
      | _ => 0

/-! ## The second-generation graphs (`src/search/search.py`) -/

namespace V2

/-- The abstract interface `Search` consumes from a graph: valid successor
enumeration, cost, heuristic and goal test (the four abstract/overridable
methods of the `Graph` base class of `src/search/search.py`). -/
structure SearchGraph (σ : Type) where
  validActionNodes : σ → List (UnitAction × σ)
  cost : UnitAction → σ → ℚ
  heuristic : σ → ℚ
  completesGoal : σ → Bool

/-- `Graph.cost` of `src/search/search.py` (lines 50-53): power cost plus the
time-to-power cost plus the danger cost (base danger plus the extra danger from
Constraints). -/
def graphCost (b : Board) (ttp : ℚ) (cfg : UnitConfig) (ut : UnitType) (k : Constraints)
    (a : UnitAction) (toC : TimeCoordinate) : ℚ :=
  actionPowerCost a cfg toC.xy b + ttp + (baseDangerCost ut b toC + k.getDangerCost toC)

/-- `Graph.get_valid_action_nodes` (lines 44-48): keep an (action, successor)
pair only when the successor does not violate the Constraints and is valid on
the board for the player. -/
def filterValid {σ : Type} (toTC : σ → TimeCoordinate) (k : Constraints) (b : Board)
    (pairs : List (UnitAction × σ)) : List (UnitAction × σ) :=
  pairs.filter fun an =>
    !k.tcViolatesConstraint (toTC an.2) && b.validForPlayer (toTC an.2).xy

/-- `GoalGraph.__post_init__`s `last_action_cost`: time-to-power cost plus the
power cost of the final move onto the goal tile. -/
def lastActionCost (ttp : ℚ) (cfg : UnitConfig) (goal : Coordinate) (b : Board) : ℚ :=
  ttp + moveOntoCost cfg goal b

/-- `GoalGraph._get_distance_heuristic` (lines 95-102): zero at the goal,
otherwise (steps - 1) lower-bound move costs plus the exact last-action cost. -/
def goalDistanceHeuristic (ttp : ℚ) (cfg : UnitConfig) (goal : Coordinate) (b : Board)
    (node : Coordinate) : ℚ :=
  let minNrSteps := dist node goal
  if minNrSteps = 0 then 0
  else ((minNrSteps : ℚ) - 1) * (ttp + cfg.MOVE_COST) + lastActionCost ttp cfg goal b

/-- The move-action lists the graphs enumerate: all five directions, or the
four non-center ones when the constraints are falsy. -/
def moveActions (allDirections : Bool) : List UnitAction :=
  if allDirections then Direction.all.map .move
  else (Direction.all.filter fun d => d ≠ .center).map .move

/-- `MoveToGraph` of `src/search/search.py`. -/
structure MoveToGraph where
  board : Board
  timeToPowerCost : ℚ
  unitCfg : UnitConfig
  unitType : UnitType
  constraints : Constraints
  goal : Coordinate

/-- `MoveToGraph.potential_actions`: all moves, reduced to the non-center moves
by `__post_init__` when the constraints are falsy. -/
def MoveToGraph.potentialActions (g : MoveToGraph) : List UnitAction :=
  moveActions g.constraints.isTruthy

/-- `MoveToGraph`s inherited `get_valid_action_nodes`. -/
def MoveToGraph.validActionNodes (g : MoveToGraph) (c : TimeCoordinate) :
    List (UnitAction × TimeCoordinate) :=
  filterValid id g.constraints g.board
    (g.potentialActions.map fun a => (a, c.addAction a))

/-- `MoveToGraph.node_completes_goal`: `self.goal == node` via
`Coordinate.__eq__`, so x and y only. -/
def MoveToGraph.nodeCompletesGoal (g : MoveToGraph) (node : TimeCoordinate) : Bool :=
  g.goal.pyEq node.x node.y

/-- The `SearchGraph` interface of a `MoveToGraph`. -/
def MoveToGraph.toSearchGraph (g : MoveToGraph) : SearchGraph TimeCoordinate :=
  { validActionNodes := g.validActionNodes
    cost := fun a toC =>
      graphCost g.board g.timeToPowerCost g.unitCfg g.unitType g.constraints a toC
    heuristic := fun node =>
      goalDistanceHeuristic g.timeToPowerCost g.unitCfg g.goal g.board node.xy
    completesGoal := g.nodeCompletesGoal }

/-- `TilesToClearGraph` of `src/search/search.py`: heavy-config graph with
empty constraints, fixed time-to-power cost 50
(`CONFIG.OPTIMAL_PATH_TIME_TO_POWER_COST`) and resource tiles excluded. -/
structure TilesToClearGraph where
  board : Board
  unitCfg : UnitConfig
  goal : Coordinate

/-- The fixed `time_to_power_cost` of `TilesToClearGraph`. -/
def TilesToClearGraph.timeToPowerCost : ℚ := 50

/-- `TilesToClearGraph.potential_actions`: the non-center moves. -/
def TilesToClearGraph.potentialActions : List UnitAction :=
  (Direction.all.filter fun d => d ≠ .center).map .move

/-- `TilesToClearGraph.get_valid_action_nodes` (lines 118-126): additionally
excludes resource tiles; its constraints are the empty default, so the
constraint check never fires. -/
def TilesToClearGraph.validActionNodes (g : TilesToClearGraph) (c : TimeCoordinate) :
    List (UnitAction × TimeCoordinate) :=
  (TilesToClearGraph.potentialActions.map fun a => (a, c.addAction a)).filter fun an =>
    !Constraints.empty.tcViolatesConstraint an.2 && g.board.validForPlayer an.2.xy &&
      !g.board.isResourceTile an.2.xy

/-- `TilesToClearGraph.cost` (lines 114-116): power plus time-to-power cost,
without danger terms. -/
def TilesToClearGraph.cost (g : TilesToClearGraph) (a : UnitAction) (toC : TimeCoordinate) : ℚ :=
  actionPowerCost a g.unitCfg toC.xy g.board + TilesToClearGraph.timeToPowerCost

/-- The `SearchGraph` interface of a `TilesToClearGraph`. -/
def TilesToClearGraph.toSearchGraph (g : TilesToClearGraph) : SearchGraph TimeCoordinate :=
  { validActionNodes := g.validActionNodes
    cost := g.cost
    heuristic := fun node =>
      goalDistanceHeuristic TilesToClearGraph.timeToPowerCost g.unitCfg g.goal g.board node.xy
    completesGoal := fun node => g.goal.pyEq node.x node.y }

/-- `EvadeConstraintsGraph` of `src/search/search.py`. -/
structure EvadeConstraintsGraph where
  board : Board
  timeToPowerCost : ℚ
  unitCfg : UnitConfig
  unitType : UnitType
  constraints : Constraints

/-- `EvadeConstraintsGraph.potential_actions`: all five moves. -/
def EvadeConstraintsGraph.potentialActions : List UnitAction :=
  Direction.all.map .move

/-- `EvadeConstraintsGraph`s inherited `get_valid_action_nodes`. -/
def EvadeConstraintsGraph.validActionNodes (g : EvadeConstraintsGraph) (c : TimeCoordinate) :
    List (UnitAction × TimeCoordinate) :=
  filterValid id g.constraints g.board
    (EvadeConstraintsGraph.potentialActions.map fun a => (a, c.addAction a))

/-- `EvadeConstraintsGraph.node_completes_goal` (lines 172-174): staying put
for one more step would not violate a constraint. -/
def EvadeConstraintsGraph.nodeCompletesGoal (g : EvadeConstraintsGraph)
    (node : TimeCoordinate) : Bool :=
  !g.constraints.tcViolatesConstraint (node.addAction (.move .center))

/-- The `SearchGraph` interface of an `EvadeConstraintsGraph`; its heuristic is
`-node.t`. -/
def EvadeConstraintsGraph.toSearchGraph (g : EvadeConstraintsGraph) :
    SearchGraph TimeCoordinate :=
  { validActionNodes := g.validActionNodes
    cost := fun a toC =>
      graphCost g.board g.timeToPowerCost g.unitCfg g.unitType g.constraints a toC
    heuristic := fun node => -(node.t : ℚ)
    completesGoal := g.nodeCompletesGoal }

/-- Modelled from the spec: `logic/goal_resolution/power_availabilty_tracker.py`
is not in src; the tracker answers "power available in the base's tracked power
ledger" per factory and turn. -/
structure PowerTracker where
  getPowerAvailable : Factory → Int → Int

/-- `PickupPowerGraph` of `src/search/search.py`. -/
structure PickupPowerGraph where
  board : Board
  timeToPowerCost : ℚ
  unitCfg : UnitConfig
  unitType : UnitType
  constraints : Constraints
  factoryPowerAvailabilityTracker : PowerTracker
  nextGoalC : Option Coordinate

/-- The pickup amount computed by `PickupPowerGraph.potential_actions` (lines
186-188): the minimum of battery space left, the power available in the
closest factory at that turn, and 3000. -/
def PickupPowerGraph.pickupAmount (g : PickupPowerGraph) (c : ResourcePowerTimeCoordinate) : Int :=
  let factory := g.board.closestPlayerFactory c.xy
  let powerAvailableInFactory := g.factoryPowerAvailabilityTracker.getPowerAvailable factory c.t
  let batterySpaceLeft := g.unitCfg.BATTERY_CAPACITY - c.p
  min (min batterySpaceLeft powerAvailableInFactory) 3000

/-- `PickupPowerGraph.potential_actions` (lines 183-195): on a player factory
tile with a nonzero pickup amount, a pickup action followed by all moves;
otherwise the moves only. -/
def PickupPowerGraph.potentialActions (g : PickupPowerGraph) (c : ResourcePowerTimeCoordinate) :
    List UnitAction :=
  let moves := Direction.all.map UnitAction.move
  if g.board.isPlayerFactoryTile c.xy then
    if g.pickupAmount c ≠ 0 then .pickup (g.pickupAmount c) .power :: moves else moves
  else moves

/-- `PickupPowerGraph`s inherited `get_valid_action_nodes`. -/
def PickupPowerGraph.validActionNodes (g : PickupPowerGraph) (c : ResourcePowerTimeCoordinate) :
    List (UnitAction × ResourcePowerTimeCoordinate) :=
  filterValid ResourcePowerTimeCoordinate.toTC g.constraints g.board
    ((g.potentialActions c).map fun a => (a, c.addAction a))

/-- `PickupPowerGraph.cost` (lines 197-205): the base cost, plus — for a pickup
action when a next goal is known — the lower-bound distance cost from the
pickup tile to the next goal. -/
def PickupPowerGraph.cost (g : PickupPowerGraph) (a : UnitAction)
    (toC : ResourcePowerTimeCoordinate) : ℚ :=
  let moveCost :=
    graphCost g.board g.timeToPowerCost g.unitCfg g.unitType g.constraints a toC.toTC
  match g.nextGoalC, a with
  | some nextGoal, .pickup _ _ =>
      moveCost + (dist toC.xy nextGoal : ℚ) * (g.timeToPowerCost + g.unitCfg.MOVE_COST)
  | _, _ => moveCost

/-- `PickupPowerGraph.node_completes_goal`: the pick-up counter is positive. -/
def PickupPowerGraph.nodeCompletesGoal (node : ResourcePowerTimeCoordinate) : Bool :=
  0 < node.q

/-- `PickupPowerGraph._get_distance_heuristic` (lines 215-230): distance to the
closest player factory tile, plus — when a next goal is known — the distance
from that same tile to the next goal, both scaled by the per-step lower
bound. -/
def PickupPowerGraph.distanceHeuristic (g : PickupPowerGraph) (node : Coordinate) : ℚ :=
  let closestFactoryTile := g.board.closestPlayerFactoryTile node
  let distanceToClosest := dist node closestFactoryTile
  let totalDistance :=
    match g.nextGoalC with
    | some nextGoal => distanceToClosest + dist nextGoal closestFactoryTile
    | none => distanceToClosest
  (totalDistance : ℚ) * (g.timeToPowerCost + g.unitCfg.MOVE_COST)

/-- `PickupPowerGraph.heuristic` (lines 207-213). -/
def PickupPowerGraph.heuristic (g : PickupPowerGraph) (node : ResourcePowerTimeCoordinate) : ℚ :=
  if PickupPowerGraph.nodeCompletesGoal node then 0
  else g.distanceHeuristic node.xy + g.timeToPowerCost

/-- The `SearchGraph` interface of a `PickupPowerGraph`. -/
def PickupPowerGraph.toSearchGraph (g : PickupPowerGraph) :
    SearchGraph ResourcePowerTimeCoordinate :=
  { validActionNodes := g.validActionNodes
    cost := g.cost
    heuristic := g.heuristic
    completesGoal := PickupPowerGraph.nodeCompletesGoal }

/-- Modelled from the spec: `Coordinate.direction_to`, the direction from one
tile towards another (used only to aim the transfer). -/
def Coordinate.directionTo (a b : Coordinate) : Direction :=
  if a.x < b.x then .right
  else if b.x < a.x then .left
  else if a.y < b.y then .down
  else if b.y < a.y then .up
  else .center

/-- `TransferResourceGraph` of `src/search/search.py`. -/
structure TransferResourceGraph where
  board : Board
  timeToPowerCost : ℚ
  unitCfg : UnitConfig
  unitType : UnitType
  constraints : Constraints
  resource : Resource
  factory : Option Factory

/-- The minimal number of steps from `c` to the receiving factory (any player
factory, or the specific strain when one is fixed). -/
def TransferResourceGraph.minStepsToFactory (g : TransferResourceGraph) (c : Coordinate) : Nat :=
  match g.factory with
  | none => g.board.minDistanceToAnyPlayerFactory c
  | some f => g.board.minDistanceToPlayerFactory c f.strainId

/-- `TransferResourceGraph.potential_actions` (lines 248-262): a transfer
action towards the closest factory tile when within distance one of the
receiving factory, then all moves. -/
def TransferResourceGraph.potentialActions (g : TransferResourceGraph)
    (c : ResourcePowerTimeCoordinate) : List UnitAction :=
  let moves := Direction.all.map UnitAction.move
  if g.minStepsToFactory c.xy ≤ 1 then
    let factoryTile := g.board.closestPlayerFactoryTile c.xy
    .transfer (Coordinate.directionTo c.xy factoryTile) g.unitCfg.CARGO_SPACE g.resource :: moves
  else moves

/-- `TransferResourceGraph`s inherited `get_valid_action_nodes`. -/
def TransferResourceGraph.validActionNodes (g : TransferResourceGraph)
    (c : ResourcePowerTimeCoordinate) : List (UnitAction × ResourcePowerTimeCoordinate) :=
  filterValid ResourcePowerTimeCoordinate.toTC g.constraints g.board
    ((g.potentialActions c).map fun a => (a, c.addAction a))

/-- `TransferResourceGraph.node_completes_goal`: the transfer counter is
negative. -/
def TransferResourceGraph.nodeCompletesGoal (node : ResourcePowerTimeCoordinate) : Bool :=
  node.q < 0

/-- `TransferResourceGraph._get_distance_heuristic` (lines 272-281). -/
def TransferResourceGraph.distanceHeuristic (g : TransferResourceGraph) (node : Coordinate) : ℚ :=
  let minNrStepsNextToFactory : Nat := g.minStepsToFactory node - 1
  (minNrStepsNextToFactory : ℚ) * (g.timeToPowerCost + g.unitCfg.MOVE_COST)

/-- `TransferResourceGraph.heuristic` (lines 264-270). -/
def TransferResourceGraph.heuristic (g : TransferResourceGraph)
    (node : ResourcePowerTimeCoordinate) : ℚ :=
  if TransferResourceGraph.nodeCompletesGoal node then 0
  else g.distanceHeuristic node.xy + g.timeToPowerCost

/-- The `SearchGraph` interface of a `TransferResourceGraph`. -/
def TransferResourceGraph.toSearchGraph (g : TransferResourceGraph) :
    SearchGraph ResourcePowerTimeCoordinate :=
  { validActionNodes := g.validActionNodes
    cost := fun a toC =>
      graphCost g.board g.timeToPowerCost g.unitCfg g.unitType g.constraints a toC.toTC
    heuristic := g.heuristic
    completesGoal := TransferResourceGraph.nodeCompletesGoal }

/-- `DigAtGraph` of `src/search/search.py`. -/
structure DigAtGraph where
  board : Board
  timeToPowerCost : ℚ
  unitCfg : UnitConfig
  unitType : UnitType
  constraints : Constraints
  goal : DigCoordinate

/-- `DigAtGraph.potential_actions` (lines 306-318): on the goal tile after the
time horizon only the dig action remains; on the goal tile before the horizon
the moves followed by the dig action; elsewhere only the moves.  The moves lose
the center direction when the constraints are falsy (`__post_init__`). -/
def DigAtGraph.potentialActions (g : DigAtGraph) (c : DigTimeCoordinate) : List UnitAction :=
  let moves := moveActions g.constraints.isTruthy
  if g.goal.x = c.x ∧ g.goal.y = c.y then
    match g.constraints.maxT with
    | some maxT => if maxT ≠ 0 ∧ maxT ≤ c.t then [.dig 1] else moves ++ [.dig 1]
    | none => moves ++ [.dig 1]
  else moves

/-- `DigAtGraph`s inherited `get_valid_action_nodes`. -/
def DigAtGraph.validActionNodes (g : DigAtGraph) (c : DigTimeCoordinate) :
    List (UnitAction × DigTimeCoordinate) :=
  filterValid DigTimeCoordinate.toTC g.constraints g.board
    ((g.potentialActions c).map fun a => (a, c.addAction a))

/-- `DigAtGraph._get_digs_min_cost` (lines 326-330). -/
def DigAtGraph.digsMinCost (g : DigAtGraph) (node : DigTimeCoordinate) : ℚ :=
  ((g.goal.d : ℚ) - (node.d : ℚ)) * (g.unitCfg.DIG_COST + g.timeToPowerCost)

/-- `DigAtGraph.heuristic` (lines 320-324). -/
def DigAtGraph.heuristic (g : DigAtGraph) (node : DigTimeCoordinate) : ℚ :=
  goalDistanceHeuristic g.timeToPowerCost g.unitCfg ⟨g.goal.x, g.goal.y⟩ g.board node.xy +
    g.digsMinCost node

/-- `DigAtGraph.node_completes_goal`: `self.goal == node` via
`DigCoordinate.__eq__`, so x, y and d. -/
def DigAtGraph.nodeCompletesGoal (g : DigAtGraph) (node : DigTimeCoordinate) : Bool :=
  g.goal.pyEq node.x node.y node.d

/-- The `SearchGraph` interface of a `DigAtGraph`. -/
def DigAtGraph.toSearchGraph (g : DigAtGraph) : SearchGraph DigTimeCoordinate :=
  { validActionNodes := g.validActionNodes
    cost := fun a toC =>
      graphCost g.board g.timeToPowerCost g.unitCfg g.unitType g.constraints a toC.toTC
    heuristic := g.heuristic
    completesGoal := g.nodeCompletesGoal }

/-! ### The budgeted A* engine (`Search` of `src/search/search.py`) -/

/-- The two recoverable search failures (`NoSolutionError`,
`SolutionNotFoundWithinBudgetError`, lines 336-341). -/
inductive SearchError
  | noSolutionError
  | solutionNotFoundWithinBudgetError
deriving DecidableEq, Repr

/-- The search bookkeeping: the frontier (priority, state), the predecessor map
`came_from` and the best-known-cost map `cost_so_far`, both as association
lists where the most recent binding shadows older ones. -/
structure SearchSt (σ : Type) where
  frontier : List (ℚ × σ)
  cameFrom : List (σ × UnitAction × σ)
  costSoFar : List (σ × ℚ)

/-- Look up a state in `came_from`. -/
def lookupCame {σ : Type} [DecidableEq σ] (came : List (σ × UnitAction × σ)) (s : σ) :
    Option (UnitAction × σ) :=
  (came.find? fun e => e.1 = s).map fun e => e.2

/-- Look up a state in `cost_so_far`. -/
def lookupCost {σ : Type} [DecidableEq σ] (costs : List (σ × ℚ)) (s : σ) : Option ℚ :=
  (costs.find? fun e => e.1 = s).map fun e => e.2

/-- Modelled from the spec: `utils.PriorityQueue` is not in src; the spec says
search explores "states ordered by (cost-so-far + heuristic)".  Pop a
minimal-priority element (the leftmost one on ties) and return it with the
remaining queue.  The priority type is abstract so that the first-generation
engine can use infinities (`math.inf` becomes `WithTop ℚ`). -/
def popMin {π σ : Type} [LinearOrder π] : List (π × σ) → Option ((π × σ) × List (π × σ))
  | [] => none
  | x :: xs =>
      match popMin xs with
      | none => some (x, [])
      | some (m, rest) => if x.1 ≤ m.1 then some (x, xs) else some (m, x :: rest)

/-- `Search._add_node` (lines 388-395): record the cost and predecessor of the
relaxed node and push it on the frontier with priority cost + heuristic. -/
def addNode {σ : Type} (g : SearchGraph σ) (st : SearchSt σ) (node : σ) (action : UnitAction)
    (currentNode : σ) (nodeCost : ℚ) : SearchSt σ :=
  { frontier := (nodeCost + g.heuristic node, node) :: st.frontier
    cameFrom := (node, action, currentNode) :: st.cameFrom
    costSoFar := (node, nodeCost) :: st.costSoFar }

/-- One relaxation of the inner loop of `Search._find_optimal_solution` (lines
381-384): a successor is (re-)inserted only when reached at strictly lower cost
than previously known. -/
def relax {σ : Type} [DecidableEq σ] (g : SearchGraph σ) (currentNode : σ) (currentCost : ℚ)
    (st : SearchSt σ) (an : UnitAction × σ) : SearchSt σ :=
  let newCost := currentCost + g.cost an.1 an.2
  match lookupCost st.costSoFar an.2 with
  | none => addNode g st an.2 an.1 currentNode newCost
  | some old => if newCost < old then addNode g st an.2 an.1 currentNode newCost else st

/-- Expansion of one popped node over all its valid action nodes. -/
def expandNode {σ : Type} [DecidableEq σ] (g : SearchGraph σ) (currentNode : σ)
    (currentCost : ℚ) (st : SearchSt σ) : SearchSt σ :=
  (g.validActionNodes currentNode).foldl (relax g currentNode currentCost) st

/-- The loop body of `Search._find_optimal_solution` (lines 367-386), indexed
by the remaining iteration allowance `fuel = budget + 1 - i` (the loop check
`i > budget` of the source is exactly `fuel = 0`): raise `NoSolutionError` on
an empty frontier (checked first, as in the source), raise
`SolutionNotFoundWithinBudgetError` once the allowance is exhausted, stop on
the first goal-satisfying popped node, otherwise expand and continue. -/
def searchLoopAux {σ : Type} [DecidableEq σ] (g : SearchGraph σ) :
    Nat → SearchSt σ → Except SearchError (σ × SearchSt σ)
  | 0, st =>
      match popMin st.frontier with
      | none => .error .noSolutionError
      | some _ => .error .solutionNotFoundWithinBudgetError
  | fuel + 1, st =>
      match popMin st.frontier with
      | none => .error .noSolutionError
      | some (pr, rest) =>
          if g.completesGoal pr.2 then .ok (pr.2, { st with frontier := rest })
          else
            searchLoopAux g fuel
              (expandNode g pr.2 ((lookupCost st.costSoFar pr.2).getD 0)
                { st with frontier := rest })

/-- `Search._find_optimal_solution` (lines 367-386) with the iteration counter
`i` made explicit. -/
def findOptimalSolution {σ : Type} [DecidableEq σ] (g : SearchGraph σ) (budget : Nat)
    (i : Nat) (st : SearchSt σ) : Except SearchError (σ × SearchSt σ) :=
  searchLoopAux g (budget + 1 - i) st

/-- `Search._get_solution_actions` (lines 397-405): walk the predecessor map
back from the final node, collecting actions; the walk is bounded by the fuel
(the sources' dict-walk terminates because predecessors were recorded in
insertion order). -/
def getSolutionActions {σ : Type} [DecidableEq σ] (came : List (σ × UnitAction × σ)) :
    Nat → σ → List UnitAction
  | 0, _ => []
  | fuel + 1, cur =>
      match lookupCame came cur with
      | none => []
      | some (a, prev) => getSolutionActions came fuel prev ++ [a]

/-- The states visited by the reconstructed solution, in order, the start
first. -/
def solutionNodes {σ : Type} [DecidableEq σ] (came : List (σ × UnitAction × σ)) :
    Nat → σ → List σ
  | 0, cur => [cur]
  | fuel + 1, cur =>
      match lookupCame came cur with
      | none => [cur]
      | some (_, prev) => solutionNodes came fuel prev ++ [cur]

/-- `Search._init_search` (lines 357-365): the start state enters the frontier
with priority 0 and cost 0. -/
def initSearchSt {σ : Type} (start : σ) : SearchSt σ :=
  { frontier := [(0, start)], cameFrom := [], costSoFar := [(start, 0)] }

/-- `Search.get_actions_to_complete_goal` (lines 352-355): initialize, run the
budgeted loop, reconstruct the ordered action list. -/
def getActionsToCompleteGoal {σ : Type} [DecidableEq σ] (g : SearchGraph σ) (start : σ)
    (budget : Nat) : Except SearchError (List UnitAction) :=
  (findOptimalSolution g budget 0 (initSearchSt start)).map fun r =>
    getSolutionActions r.2.cameFrom r.2.cameFrom.length r.1

end V2

/-! ## The first-generation graphs and engine (`src/agent/search.py`) -/

namespace V1

/-- The interface of the first-generation `Graph`: its `cost` takes the source
state as well and yields `math.inf` (`⊤`) on forbidden successors (lines
55-60), while `get_valid_action_nodes` (lines 45-53) checks only board
validity. -/
structure SearchGraph (σ : Type) where
  validActionNodes : σ → List (UnitAction × σ)
  cost : UnitAction → σ → σ → WithTop ℚ
  heuristic : σ → ℚ
  completesGoal : σ → Bool

/-- `Graph.cost` of `src/agent/search.py` (lines 55-60): infinite on a
forbidden successor, otherwise power cost plus time-to-power cost. -/
def graphCost (b : Board) (ttp : ℚ) (cfg : UnitConfig) (k : Constraints)
    (a : UnitAction) (toC : TimeCoordinate) : WithTop ℚ :=
  if k.tcViolatesConstraint toC then ⊤
  else (actionPowerCost a cfg toC.xy b + ttp : ℚ)

/-- `Graph.get_valid_action_nodes` of `src/agent/search.py` (lines 45-53):
keeps a successor when it is valid on the board for the player; the
constraints are not consulted here. -/
def boardFilter {σ : Type} (toTC : σ → TimeCoordinate) (b : Board)
    (pairs : List (UnitAction × σ)) : List (UnitAction × σ) :=
  pairs.filter fun an => b.validForPlayer (toTC an.2).xy

/-- `Graph._get_distance_heuristic` of `src/agent/search.py` (lines 75-79):
remaining Manhattan distance times the per-step lower bound. -/
def distanceHeuristic (ttp : ℚ) (cfg : UnitConfig) (goal : Coordinate) (node : Coordinate) : ℚ :=
  (dist node goal : ℚ) * (ttp + cfg.MOVE_COST)

/-- `MoveToGraph` of `src/agent/search.py`. -/
structure MoveToGraph where
  board : Board
  timeToPowerCost : ℚ
  unitCfg : UnitConfig
  constraints : Constraints
  goal : Coordinate

/-- `MoveToGraph.potential_actions`: all moves, reduced to the non-center moves
when there are no time constraints (`__post_init__`, lines 87-91). -/
def MoveToGraph.potentialActions (g : MoveToGraph) : List UnitAction :=
  V2.moveActions g.constraints.hasTimeConstraints

/-- `MoveToGraph`s inherited `get_valid_action_nodes`. -/
def MoveToGraph.validActionNodes (g : MoveToGraph) (c : TimeCoordinate) :
    List (UnitAction × TimeCoordinate) :=
  boardFilter id g.board (g.potentialActions.map fun a => (a, c.addAction a))

/-- The `SearchGraph` interface of a first-generation `MoveToGraph`. -/
def MoveToGraph.toSearchGraph (g : MoveToGraph) : SearchGraph TimeCoordinate :=
  { validActionNodes := g.validActionNodes
    cost := fun a _ toC => graphCost g.board g.timeToPowerCost g.unitCfg g.constraints a toC
    heuristic := fun node => distanceHeuristic g.timeToPowerCost g.unitCfg g.goal node.xy
    completesGoal := fun node => g.goal.pyEq node.x node.y }

/-- `FleeToGraph` of `src/agent/search.py`. -/
structure FleeToGraph where
  board : Board
  timeToPowerCost : ℚ
  unitCfg : UnitConfig
  constraints : Constraints
  goal : Coordinate
  startC : TimeCoordinate
  oppC : Coordinate

/-- The `_potential_actions` attribute of `FleeToGraph` after
`__post_init__` (lines 108-114). -/
def FleeToGraph.baseActions (g : FleeToGraph) : List UnitAction :=
  V2.moveActions g.constraints.hasTimeConstraints

/-- `FleeToGraph.potential_actions` (lines 116-127): at the starting turn,
exclude stationary moves and moves ending on the opponent's tile; one turn
later, exclude moves ending on the fleeing unit's own starting tile; from then
on, all base actions. -/
def FleeToGraph.potentialActions (g : FleeToGraph) (c : TimeCoordinate) : List UnitAction :=
  if c.t = g.startC.t then
    g.baseActions.filter fun a =>
      (c.addAction a).xy ≠ g.oppC ∧ a.isStationary = false
  else if c.t = g.startC.t + 1 then
    g.baseActions.filter fun a => (c.addAction a).xy ≠ g.startC.xy
  else g.baseActions

/-- `FleeToGraph`s inherited `get_valid_action_nodes`. -/
def FleeToGraph.validActionNodes (g : FleeToGraph) (c : TimeCoordinate) :
    List (UnitAction × TimeCoordinate) :=
  boardFilter id g.board ((g.potentialActions c).map fun a => (a, c.addAction a))

/-- The `SearchGraph` interface of a `FleeToGraph`. -/
def FleeToGraph.toSearchGraph (g : FleeToGraph) : SearchGraph TimeCoordinate :=
  { validActionNodes := g.validActionNodes
    cost := fun a _ toC => graphCost g.board g.timeToPowerCost g.unitCfg g.constraints a toC
    heuristic := fun node => distanceHeuristic g.timeToPowerCost g.unitCfg g.goal node.xy
    completesGoal := fun node => g.goal.pyEq node.x node.y }

/-- `PickupPowerGraph` of `src/agent/search.py`. -/
structure PickupPowerGraph where
  board : Board
  timeToPowerCost : ℚ
  unitCfg : UnitConfig
  constraints : Constraints
  powerPickupGoal : Int

/-- `PickupPowerGraph.__post_init__` (lines 141-145): a truthy power-request
ceiling caps the pickup goal before the fixed recharge action is built. -/
def PickupPowerGraph.effectivePickupGoal (g : PickupPowerGraph) : Int :=
  match g.constraints.maxPowerRequest with
  | some m => if m ≠ 0 ∧ m < g.powerPickupGoal then m else g.powerPickupGoal
  | none => g.powerPickupGoal

/-- `PickupPowerGraph.potential_actions` (lines 152-156): on a player factory
tile the moves plus the one fixed recharge action, otherwise the moves. -/
def PickupPowerGraph.potentialActions (g : PickupPowerGraph) (c : PowerTimeCoordinate) :
    List UnitAction :=
  let moves := V2.moveActions g.constraints.hasTimeConstraints
  if g.board.isPlayerFactoryTile c.xy then
    moves ++ [.pickup g.effectivePickupGoal .power]
  else moves

/-- `PickupPowerGraph`s inherited `get_valid_action_nodes`. -/
def PickupPowerGraph.validActionNodes (g : PickupPowerGraph) (c : PowerTimeCoordinate) :
    List (UnitAction × PowerTimeCoordinate) :=
  boardFilter PowerTimeCoordinate.toTC g.board
    ((g.potentialActions c).map fun a => (a, c.addAction a))

/-- `PickupPowerGraph.node_completes_goal` (lines 174-175). -/
def PickupPowerGraph.nodeCompletesGoal (g : PickupPowerGraph) (node : PowerTimeCoordinate) :
    Bool :=
  g.powerPickupGoal ≤ node.p

/-- `PickupPowerGraph.heuristic` (lines 158-172): the plain distance to the
closest factory tile plus one time-to-power cost while the goal amount has not
been picked up. -/
def PickupPowerGraph.heuristic (g : PickupPowerGraph) (node : PowerTimeCoordinate) : ℚ :=
  (dist node.xy (g.board.closestPlayerFactoryTile node.xy) : ℚ) +
    (if g.nodeCompletesGoal node then 0 else g.timeToPowerCost)

/-- The `SearchGraph` interface of a first-generation `PickupPowerGraph`. -/
def PickupPowerGraph.toSearchGraph (g : PickupPowerGraph) : SearchGraph PowerTimeCoordinate :=
  { validActionNodes := g.validActionNodes
    cost := fun a _ toC => graphCost g.board g.timeToPowerCost g.unitCfg g.constraints a toC.toTC
    heuristic := g.heuristic
    completesGoal := g.nodeCompletesGoal }

/-- The first-generation search bookkeeping; costs and priorities live in
`WithTop ℚ` because `Graph.cost` can return `math.inf`. -/
structure SearchSt (σ : Type) where
  frontier : List (WithTop ℚ × σ)
  cameFrom : List (σ × UnitAction × σ)
  costSoFar : List (σ × WithTop ℚ)

/-- Look up a state in the first-generation `cost_so_far`. -/
def lookupCost {σ : Type} [DecidableEq σ] (costs : List (σ × WithTop ℚ)) (s : σ) :
    Option (WithTop ℚ) :=
  (costs.find? fun e => e.1 = s).map fun e => e.2

/-- `Search._add_node` of `src/agent/search.py` (lines 248-252). -/
def addNode {σ : Type} (g : SearchGraph σ) (st : SearchSt σ) (node : σ) (action : UnitAction)
    (currentNode : σ) (nodeCost : WithTop ℚ) : SearchSt σ :=
  { frontier := (nodeCost + (g.heuristic node : ℚ), node) :: st.frontier
    cameFrom := (node, action, currentNode) :: st.cameFrom
    costSoFar := (node, nodeCost) :: st.costSoFar }

/-- One relaxation of the inner loop of the first-generation
`_find_optimal_solution` (lines 240-244); note that the forbidden-successor
`math.inf` cost flows into the frontier here instead of being filtered out. -/
def relax {σ : Type} [DecidableEq σ] (g : SearchGraph σ) (currentNode : σ)
    (currentCost : WithTop ℚ) (st : SearchSt σ) (an : UnitAction × σ) : SearchSt σ :=
  let newCost := currentCost + g.cost an.1 currentNode an.2
  match lookupCost st.costSoFar an.2 with
  | none => addNode g st an.2 an.1 currentNode newCost
  | some old => if newCost < old then addNode g st an.2 an.1 currentNode newCost else st

/-- Expansion of one popped node in the first-generation engine. -/
def expandNode {σ : Type} [DecidableEq σ] (g : SearchGraph σ) (currentNode : σ)
    (currentCost : WithTop ℚ) (st : SearchSt σ) : SearchSt σ :=
  (g.validActionNodes currentNode).foldl (relax g currentNode currentCost) st

/-- `Search._find_optimal_solution` of `src/agent/search.py` (lines 231-246):
an unbudgeted while-loop (bounded here by explicit fuel, returning `none` when
the fuel runs out).  When the frontier empties without reaching a goal the
Python code keeps the last popped node as `final_node`; `last` models that. -/
def findOptimalSolution {σ : Type} [DecidableEq σ] (g : SearchGraph σ) :
    Nat → Option σ → SearchSt σ → Option (σ × SearchSt σ)
  | 0, _, _ => none
  | fuel + 1, last, st =>
      match V2.popMin st.frontier with
      | none => last.map fun l => (l, st)
      | some (pr, rest) =>
          if g.completesGoal pr.2 then some (pr.2, { st with frontier := rest })
          else
            findOptimalSolution g fuel (some pr.2)
              (expandNode g pr.2 ((lookupCost st.costSoFar pr.2).getD 0)
                { st with frontier := rest })

/-- `Search._init_search` of `src/agent/search.py` (lines 227-229). -/
def initSt {σ : Type} (start : σ) : SearchSt σ :=
  { frontier := [(0, start)], cameFrom := [], costSoFar := [(start, 0)] }

/-- `Search.get_actions_to_complete_goal` of `src/agent/search.py` (lines
222-225). -/
def getActionsToCompleteGoal {σ : Type} [DecidableEq σ] (g : SearchGraph σ) (start : σ)
    (fuel : Nat) : Option (List UnitAction) :=
  (findOptimalSolution g fuel none (initSt start)).map fun r =>
    V2.getSolutionActions r.2.cameFrom r.2.cameFrom.length r.1

end V1

/-! ## Goal synthesis helpers (`src/agent/logic/goals/unit_goal.py`,
`src/lux_bots/agent/logic/goal.py`) -/

namespace Goals

/-- `UnitGoal._get_nr_digs_in_actions` (unit_goal.py lines 217-218): the sum of
the `n` fields of the dig actions. -/
def nrDigsInActions (actions : List UnitAction) : Nat :=
  (actions.map fun a => match a with | .dig n => n | _ => 0).sum

/-- The walk of `UnitGoal._get_actions_up_to_n_digs` for a positive target:
append every action, counting dig actions, and stop once `n` dig actions have
been kept; `none` models the `ValueError` raised when the list is exhausted
first. -/
def actionsUpToDigsAux : List UnitAction → Nat → Option (List UnitAction)
  | [], _ => none
  | a :: rest, n =>
      match a with
      | .dig _ => if n = 1 then some [a] else (actionsUpToDigsAux rest (n - 1)).map (a :: ·)
      | _ => (actionsUpToDigsAux rest n).map (a :: ·)

/-- `UnitGoal._get_actions_up_to_n_digs` (unit_goal.py lines 220-234). -/
def getActionsUpToNDigs (actions : List UnitAction) (n : Nat) : Option (List UnitAction) :=
  if n = 0 then some [] else actionsUpToDigsAux actions n

/-- The while-loop of `UnitGoal.find_max_dig_actions_can_still_reach_factory`
(unit_goal.py lines 201-212): binary search over the dig count with the
low-biased midpoint bumped by one when it equals `low`. -/
def findMaxDigsLoop (P : Nat → Bool) (low high : Nat) : Nat :=
  if low < high then
    let mid0 := (high + low) / 2
    let mid := if mid0 = low then mid0 + 1 else mid0
    if P mid then findMaxDigsLoop P mid high
    else findMaxDigsLoop P low (mid - 1)
  else low
termination_by high - low
decreasing_by
  all_goals split <;> omega

/-- `UnitGoal.find_max_dig_actions_can_still_reach_factory` (unit_goal.py lines
193-215).  The physics test `_unit_can_still_reach_factory(action_plan +
prefix)` is abstracted as `canReach` over the combined action list; `plan` is
the actions already in `self.action_plan`. -/
def findMaxDigActionsCanStillReachFactory (canReach : List UnitAction → Bool)
    (plan : List UnitAction) (actions : List UnitAction) : List UnitAction :=
  let P : Nat → Bool := fun n => canReach (plan ++ (getActionsUpToNDigs actions n).getD [])
  let low := findMaxDigsLoop P 0 (nrDigsInActions actions)
  (getActionsUpToNDigs actions low).getD []

/-- The exhaustive linear simulation the spec compares the binary search with:
starting from zero digs, keep adding one dig while the predicate accepts the
next count, up to `fuel` additional digs (this is the loop shape of
`CollectIceGoal._add_max_dig_action` in `src/lux_bots/agent/logic/goal.py`). -/
def linearScanGo (P : Nat → Bool) : Nat → Nat → Nat
  | cur, 0 => cur
  | cur, fuel + 1 => if P (cur + 1) then linearScanGo P (cur + 1) fuel else cur

/-- The maximal dig count found by trying 0, 1, 2, ... in order, capped at
`N`. -/
def linearMaxFeasibleDigs (P : Nat → Bool) (N : Nat) : Nat :=
  linearScanGo P 0 N

/-- The while-loop of `CollectIceGoal._add_max_dig_action`
(`src/lux_bots/agent/logic/goal.py` lines 110-128): `best_n` starts as `None`,
`n` counts up from zero while the plan with `n` digs can be carried out; the
unbounded Python loop is cut off by explicit fuel. -/
def addMaxDigActionGo (Q : Nat → Bool) : Nat → Nat → Option Nat → Option Nat
  | 0, _, best => best
  | fuel + 1, n, best => if Q n then addMaxDigActionGo Q fuel (n + 1) (some n) else best

/-- `CollectIceGoal._add_max_dig_action`s resulting `best_n`. -/
def addMaxDigActionBestN (Q : Nat → Bool) (fuel : Nat) : Option Nat :=
  addMaxDigActionGo Q fuel 0 none

/-- Modelled from the spec: the error raised when a goal's value or validity is
read before being computed ("reading either before they are computed is a
fatal programming error"). -/
inductive GoalError
  | valueIsNone
  | isValidIsNone
deriving DecidableEq, Repr

/-- The write-once-per-turn fields of `UnitGoal` (unit_goal.py lines 37-38):
`_value` and `_is_valid`, both unset (`None`) until computed. -/
structure UnitGoalFields where
  value? : Option ℚ
  isValid? : Option Bool
deriving DecidableEq, Repr

/-- `UnitGoal.value` (unit_goal.py lines 73-78): raises while `_value` is
`None`, otherwise returns it. -/
def UnitGoalFields.value (g : UnitGoalFields) : Except GoalError ℚ :=
  match g.value? with
  | none => .error .valueIsNone
  | some v => .ok v

/-- `UnitGoal.is_valid` (unit_goal.py lines 80-85). -/
def UnitGoalFields.isValid (g : UnitGoalFields) : Except GoalError Bool :=
  match g.isValid? with
  | none => .error .isValidIsNone
  | some v => .ok v

/-- The parts of `FactoryGoal` its accessors and `set_validity_plan` read
(factory_goal.py): the plan's occupied time coordinates, its requested power
and the two write-once fields. -/
structure FactoryGoalFields where
  actionPlanTCs : List TimeCoordinate
  powerRequested : Int
  value? : Option ℚ
  isValid? : Option Bool

/-- `FactoryGoal.value` (factory_goal.py lines 32-37). -/
def FactoryGoalFields.value (g : FactoryGoalFields) : Except GoalError ℚ :=
  match g.value? with
  | none => .error .valueIsNone
  | some v => .ok v

/-- `FactoryGoal.is_valid` (factory_goal.py lines 39-44). -/
def FactoryGoalFields.isValid (g : FactoryGoalFields) : Except GoalError Bool :=
  match g.isValid? with
  | none => .error .isValidIsNone
  | some v => .ok v

/-- `FactoryGoal.set_validity_plan` (factory_goal.py lines 46-57): invalid when
any occupied time coordinate violates the constraints or when a truthy power
ceiling is exceeded, valid otherwise. -/
def FactoryGoalFields.setValidityPlan (g : FactoryGoalFields) (k : Constraints) :
    FactoryGoalFields :=
  if g.actionPlanTCs.any k.tcViolatesConstraint then { g with isValid? := some false }
  else
    match k.maxPowerRequest with
    | some m =>
        if m ≠ 0 ∧ m < g.powerRequested then { g with isValid? := some false }
        else { g with isValid? := some true }
    | none => { g with isValid? := some true }

end Goals

/-! ## The conflict resolver (`src/lux_bots/agent/agent.py`) -/

namespace Resolver

/-- Modelled from the spec: `GoalCollection.get_key_values`/`get_goal` are
called by `resolve_goal_conflicts` but missing from src; per the spec each
actor's candidate goals contribute their value under their contested-objective
key, and `get_goal` retrieves the candidate carrying a key. -/
structure GoalCollection (γ : Type) where
  goals : List γ

/-- `goal_collection.get_goal(key)`: the first candidate with that key. -/
def GoalCollection.getGoal {γ : Type} (key : γ → String) (gc : GoalCollection γ) (k : String) :
    Option γ :=
  gc.goals.find? fun g => key g == k

/-- The column index of the pandas value matrix built by `_create_cost_matrix`
(agent.py lines 105-111): the union of all goal keys in order of first
appearance. -/
def firstOccurrences (l : List String) : List String :=
  l.foldl (fun acc k => if acc.contains k then acc else acc ++ [k]) []

/-- The columns of the cost matrix for a list of (actor, goal collection)
pairs. -/
def matrixColumns {α γ : Type} (key : γ → String) (colls : List (α × GoalCollection γ)) :
    List String :=
  firstOccurrences (colls.map (fun ag => ag.2.goals.map key)).flatten

/-- The tail of `_solve_sum_assigment_problem` (agent.py line 131): the dead
index computation is overwritten by `goal_keys = [cost_matrix.columns[c] for c
in cols]`, mapping each assigned column index to its key.  The optimal
assignment solver itself is the external `scipy.optimize.linear_sum_assignment`;
its output `cols` is a parameter here. -/
def goalKeysOfCols (columns : List String) (cols : List Nat) : List String :=
  cols.map fun c => (columns.get? c).getD ""

/-- `resolve_goal_conflicts` (agent.py lines 93-101) after the external solver:
zip the selected goal keys with the actors, look each key up in the actor's
collection (`_get_unit_goals`, lines 134-141) and keep the truthy goals. -/
def resolveGoalConflicts {α γ : Type} (key : γ → String)
    (colls : List (α × GoalCollection γ)) (cols : List Nat) : List (α × γ) :=
  let columns := matrixColumns key colls
  let goalKeys := goalKeysOfCols columns cols
  (goalKeys.zip colls).filterMap fun kc =>
    (kc.2.2.getGoal key kc.1).map fun g => (kc.2.1, g)

end Resolver

/-! ## Semantic notions used by the theorems -/

namespace V2

/-- A path through the graph: a chain of valid action nodes together with its
accumulated cost (the "true remaining cost" of the spec is the infimum of
these costs over goal-reaching paths). -/
inductive PathTo {σ : Type} (g : SearchGraph σ) : σ → σ → ℚ → Prop
  | refl (s : σ) : PathTo g s s 0
  | step {s s2 s3 : σ} {a : UnitAction} {k : ℚ} :
      (a, s2) ∈ g.validActionNodes s → PathTo g s2 s3 k → PathTo g s s3 (g.cost a s2 + k)

/-- Admissibility: the heuristic never exceeds the cost of any path from the
state to a goal-satisfying state. -/
def Admissible {σ : Type} (g : SearchGraph σ) : Prop :=
  ∀ s s2 k, PathTo g s s2 k → g.completesGoal s2 = true → g.heuristic s ≤ k

/-- A graph excludes states rejected by `ok` from expansion entirely: no valid
action node ever carries one. -/
def ExcludesForbidden {σ : Type} (g : SearchGraph σ) (ok : σ → Bool) : Prop :=
  ∀ s a s2, (a, s2) ∈ g.validActionNodes s → ok s2 = true

/-- The search-state invariant of the hard-exclusion engine: every frontier
state except the start satisfies `ok`, and every predecessor-map entry maps an
`ok` state to a predecessor that is the start or `ok`. -/
def StateOk {σ : Type} (ok : σ → Bool) (start : σ) (st : SearchSt σ) : Prop :=
  (∀ pr ∈ st.frontier, pr.2 = start ∨ ok pr.2 = true) ∧
    ∀ e ∈ st.cameFrom, ok e.1 = true ∧ (e.2.2 = start ∨ ok e.2.2 = true)

/-- The nonnegativity assumptions on the numeric parameters under which the
costs of `src/search/search.py` are nonnegative: nonnegative time-to-power
cost, move/rubble/dig configuration, rubble amounts and constraint danger
costs (all of them nonnegative in the game). -/
def CostParamsOk (b : Board) (ttp : ℚ) (cfg : UnitConfig) (k : Constraints) : Prop :=
  0 ≤ ttp ∧ 0 ≤ cfg.MOVE_COST ∧ 0 ≤ cfg.RUBBLE_MOVEMENT_COST ∧ 0 ≤ cfg.DIG_COST ∧
    (∀ c, 0 ≤ b.rubble c) ∧ ∀ tc, 0 ≤ k.danger tc

end V2

/-! ## Concrete fixtures for witnesses and counterexamples -/

/-- The LIGHT robot configuration of the Lux season (move cost 1, rubble
factor 1/20, dig cost 5, battery 150, cargo 100, charge 1). -/
def lightConfig : UnitConfig :=
  { MOVE_COST := 1
    RUBBLE_MOVEMENT_COST := 1 / 20
    DIG_COST := 5
    BATTERY_CAPACITY := 150
    CARGO_SPACE := 100
    CHARGE := 1 }

/-- An open 9 by 9 board: every tile on it valid, no rubble, no resources, no
opponent heavies anywhere near, one factory tile at (4, 4). -/
def openBoard : Board :=
  { validForPlayer := fun c => decide (0 ≤ c.x ∧ c.x < 9 ∧ 0 ≤ c.y ∧ c.y < 9)
    playerFactoryTiles := [⟨4, 4⟩]
    rubble := fun _ => 0
    minDisToOppHeavy := fun _ => 9
    isResourceTile := fun _ => false
    closestPlayerFactory := fun _ => ⟨1, [⟨4, 4⟩]⟩
    strainTiles := fun _ => [⟨4, 4⟩] }

/-- A board on which no tile is valid for the player. -/
def deadBoard : Board :=
  { validForPlayer := fun _ => false
    playerFactoryTiles := [⟨4, 4⟩]
    rubble := fun _ => 0
    minDisToOppHeavy := fun _ => 9
    isResourceTile := fun _ => false
    closestPlayerFactory := fun _ => ⟨1, [⟨4, 4⟩]⟩
    strainTiles := fun _ => [⟨4, 4⟩] }

/-- A one-row corridor board with x from 0 to 3. -/
def corridorBoard : Board :=
  { validForPlayer := fun c => decide (0 ≤ c.x ∧ c.x < 4 ∧ c.y = 0)
    playerFactoryTiles := [⟨0, 0⟩]
    rubble := fun _ => 0
    minDisToOppHeavy := fun _ => 9
    isResourceTile := fun _ => false
    closestPlayerFactory := fun _ => ⟨1, [⟨0, 0⟩]⟩
    strainTiles := fun _ => [⟨0, 0⟩] }

/-- A board with two factories whose tiles are at (5, 6) and (3, 5); every
tile valid. -/
def twoFactoryBoard : Board :=
  { validForPlayer := fun _ => true
    playerFactoryTiles := [⟨5, 6⟩, ⟨3, 5⟩]
    rubble := fun _ => 0
    minDisToOppHeavy := fun _ => 9
    isResourceTile := fun _ => false
    closestPlayerFactory := fun _ => ⟨1, [⟨5, 6⟩]⟩
    strainTiles := fun _ => [⟨5, 6⟩] }

/-- Constraints forbidding the single time coordinate (1, 0, 1). -/
def corridorConstraints : Constraints :=
  ⟨[(1, 0, 1)], none, none, fun _ => 0⟩

/-- The first-generation move-to graph used to refute the for-every-generation
reading of the hard-exclusion claim: goal (2, 0) on the corridor with (1, 0)
forbidden at t = 1. -/
def v1CexGraph : V1.MoveToGraph :=
  { board := corridorBoard
    timeToPowerCost := 5
    unitCfg := lightConfig
    constraints := corridorConstraints
    goal := ⟨2, 0⟩ }

/-- The pick-up-power graph (second generation) whose heuristic overestimates:
a next goal at (0, 5), the closest factory tile to the start (5, 5) being
(5, 6) while the factory tile (3, 5) lies on the way to the next goal. -/
def cexPickupGraph : V2.PickupPowerGraph :=
  { board := twoFactoryBoard
    timeToPowerCost := 5
    unitCfg := lightConfig
    unitType := .heavy
    constraints := Constraints.empty
    factoryPowerAvailabilityTracker := ⟨fun _ _ => 100⟩
    nextGoalC := some ⟨0, 5⟩ }

/-- A second-generation pick-up-power graph whose constraints carry a power
request ceiling of 5 while the factory ledger offers 50. -/
def c6CexGraph : V2.PickupPowerGraph :=
  { board := openBoard
    timeToPowerCost := 5
    unitCfg := lightConfig
    unitType := .light
    constraints := ⟨[], some 5, none, fun _ => 0⟩
    factoryPowerAvailabilityTracker := ⟨fun _ _ => 50⟩
    nextGoalC := none }

/-- A flee-to graph: the fleeing unit starts at (2, 2) at t = 0, the pursuer
sits at (5, 5). -/
def fleeCexGraph : V1.FleeToGraph :=
  { board := openBoard
    timeToPowerCost := 5
    unitCfg := lightConfig
    constraints := Constraints.empty
    goal := ⟨4, 4⟩
    startC := ⟨2, 2, 0⟩
    oppC := ⟨5, 5⟩ }

/-- A second-generation move-to graph on the open board with goal (3, 3). -/
def mtOpenGraph : V2.MoveToGraph :=
  { board := openBoard
    timeToPowerCost := 5
    unitCfg := lightConfig
    unitType := .light
    constraints := Constraints.empty
    goal := ⟨3, 3⟩ }

/-- A second-generation move-to graph on the dead board (no successor is ever
valid), used to realize the frontier-exhaustion outcome. -/
def mtDeadGraph : V2.MoveToGraph :=
  { board := deadBoard
    timeToPowerCost := 5
    unitCfg := lightConfig
    unitType := .light
    constraints := Constraints.empty
    goal := ⟨1, 0⟩ }

/-- The spec's forbidden-state scenario: a second-generation move-to graph on
the open board with the time coordinate (3, 2, 1) forbidden and goal (5, 2). -/
def mtConstrainedGraph : V2.MoveToGraph :=
  { board := openBoard
    timeToPowerCost := 5
    unitCfg := lightConfig
    unitType := .light
    constraints := ⟨[(3, 2, 1)], none, none, fun _ => 0⟩
    goal := ⟨5, 2⟩ }

/-- Decidable equality of search results. -/
instance exceptDecidableEq {ε α : Type} [DecidableEq ε] [DecidableEq α] :
    DecidableEq (Except ε α)
  | .ok a, .ok b => if h : a = b then .isTrue (by rw [h]) else .isFalse (by simp [h])
  | .ok _, .error _ => .isFalse (by simp)
  | .error _, .ok _ => .isFalse (by simp)
  | .error e, .error f => if h : e = f then .isTrue (by rw [h]) else .isFalse (by simp [h])

/-! ## Theorems -/

/-- **C10** (confirmed).  The move-to goal test compares only x and y of the
time-expanded node (ignoring its turn t), because `Coordinate.__eq__` compares
only x and y; the dig-at goal test compares exactly (x, y, d) and ignores t,
because `DigCoordinate.__eq__` compares only x, y and d. -/
theorem moveTo_digAt_goal_tests_ignore_time :
    (∀ (g : V2.MoveToGraph) (n : TimeCoordinate),
        (g.nodeCompletesGoal n = true ↔ g.goal.x = n.x ∧ g.goal.y = n.y) ∧
          ∀ t t2 : Int, g.nodeCompletesGoal ⟨n.x, n.y, t⟩ = g.nodeCompletesGoal ⟨n.x, n.y, t2⟩) ∧
      ∀ (g : V2.DigAtGraph) (m : DigTimeCoordinate),
        (g.nodeCompletesGoal m = true ↔ g.goal.x = m.x ∧ g.goal.y = m.y ∧ g.goal.d = m.d) ∧
          ∀ t t2 : Int,
            g.nodeCompletesGoal ⟨m.x, m.y, t, m.d⟩ = g.nodeCompletesGoal ⟨m.x, m.y, t2, m.d⟩ := by
  constructor
  · intro g n
    constructor
    · simp [V2.MoveToGraph.nodeCompletesGoal, Coordinate.pyEq]
    · intro t t2
      rfl
  · intro g m
    constructor
    · simp [V2.DigAtGraph.nodeCompletesGoal, DigCoordinate.pyEq, and_assoc]
    · intro t t2
      rfl

/-- **C9** (confirmed).  Reading a unit or factory goal's value or validity
while the underlying field is still unset yields the fatal error rather than a
default; once the field is set (in particular after `set_validity_plan` has
run) reading returns the computed value without error. -/
theorem goal_value_validity_access_contract :
    (∀ g : Goals.UnitGoalFields,
        (g.value? = none → g.value = .error .valueIsNone) ∧
          (∀ v, g.value? = some v → g.value = .ok v) ∧
          (g.isValid? = none → g.isValid = .error .isValidIsNone) ∧
          ∀ b, g.isValid? = some b → g.isValid = .ok b) ∧
      (∀ g : Goals.FactoryGoalFields,
        (g.value? = none → g.value = .error .valueIsNone) ∧
          (∀ v, g.value? = some v → g.value = .ok v) ∧
          (g.isValid? = none → g.isValid = .error .isValidIsNone) ∧
          ∀ b, g.isValid? = some b → g.isValid = .ok b) ∧
      ∀ (g : Goals.FactoryGoalFields) (k : Constraints),
        ∃ b, (g.setValidityPlan k).isValid = .ok b := by
  refine ⟨fun g => ⟨?_, ?_, ?_, ?_⟩, fun g => ⟨?_, ?_, ?_, ?_⟩, fun g k => ?_⟩
  all_goals
    try first
      | (intro h
         simp [Goals.UnitGoalFields.value, Goals.UnitGoalFields.isValid,
           Goals.FactoryGoalFields.value, Goals.FactoryGoalFields.isValid, h])
      | (intro v h
         simp [Goals.UnitGoalFields.value, Goals.UnitGoalFields.isValid,
           Goals.FactoryGoalFields.value, Goals.FactoryGoalFields.isValid, h])
  unfold Goals.FactoryGoalFields.setValidityPlan
  split
  · exact ⟨false, rfl⟩
  · split
    · split
      · exact ⟨false, rfl⟩
      · exact ⟨true, rfl⟩
    · exact ⟨true, rfl⟩

/-- Witness for C9 at concrete goal fields. -/
theorem goal_value_validity_access_contract_witness :
    (Goals.UnitGoalFields.mk none none).value = .error .valueIsNone ∧
      (Goals.UnitGoalFields.mk (some 3) (some true)).value = .ok 3 ∧
      (Goals.FactoryGoalFields.mk [] 0 none none).isValid = .error .isValidIsNone ∧
      ∃ b, ((Goals.FactoryGoalFields.mk [⟨1, 2, 3⟩] 7 none none).setValidityPlan
          Constraints.empty).isValid = .ok b :=
  ⟨(goal_value_validity_access_contract.1 _).1 rfl,
    ((goal_value_validity_access_contract.1 _).2.1 3 rfl),
    ((goal_value_validity_access_contract.2.1 _).2.2.1 rfl),
    goal_value_validity_access_contract.2.2 _ _⟩

/-- **C8** (corrected) counterexample.  At the turn immediately after the
start the flee graph still offers the move onto the pursuing unit's current
tile: from (4, 5) at t = 1 the move right onto the pursuer's tile (5, 5) is
enumerated, so the claim that the first two turns forbid stepping onto the
pursuer's current or previous tile is false as stated. -/
theorem fleeTo_opp_tile_offered_on_second_turn :
    UnitAction.move .right ∈ fleeCexGraph.potentialActions ⟨4, 5, 1⟩ ∧
      ((TimeCoordinate.mk 4 5 1).addAction (.move .right)).xy = fleeCexGraph.oppC ∧
      (TimeCoordinate.mk 4 5 1).t = fleeCexGraph.startC.t + 1 := by
  decide

/-- **C8** (corrected), amended claim.  At the starting turn the flee graph
excludes stationary moves and moves ending on the pursuer's current tile; at
the turn immediately after it excludes exactly the moves ending on the fleeing
unit's own starting tile; from the third turn on it offers all base actions. -/
theorem fleeTo_first_two_turn_filters :
    ∀ (g : V1.FleeToGraph) (c : TimeCoordinate),
      (c.t = g.startC.t →
        g.potentialActions c =
          g.baseActions.filter fun a =>
            decide ((c.addAction a).xy ≠ g.oppC ∧ a.isStationary = false)) ∧
        (c.t ≠ g.startC.t → c.t = g.startC.t + 1 →
          g.potentialActions c =
            g.baseActions.filter fun a => decide ((c.addAction a).xy ≠ g.startC.xy)) ∧
        (c.t ≠ g.startC.t → c.t ≠ g.startC.t + 1 → g.potentialActions c = g.baseActions) := by
  intro g c
  refine ⟨fun h1 => ?_, fun h1 h2 => ?_, fun h1 h2 => ?_⟩
  · simp [V1.FleeToGraph.potentialActions, h1]
  · simp [V1.FleeToGraph.potentialActions, h1, h2]
  · simp [V1.FleeToGraph.potentialActions, h1, h2]

/-- Witness for C8 (amended): the three branches at concrete states of the
concrete flee graph. -/
theorem fleeTo_first_two_turn_filters_witness :
    fleeCexGraph.potentialActions ⟨2, 2, 0⟩ =
        fleeCexGraph.baseActions.filter
          (fun a =>
            decide (((TimeCoordinate.mk 2 2 0).addAction a).xy ≠ fleeCexGraph.oppC ∧
              a.isStationary = false)) ∧
      fleeCexGraph.potentialActions ⟨4, 5, 1⟩ =
        fleeCexGraph.baseActions.filter
          (fun a => decide (((TimeCoordinate.mk 4 5 1).addAction a).xy ≠ fleeCexGraph.startC.xy)) ∧
      fleeCexGraph.potentialActions ⟨4, 5, 2⟩ = fleeCexGraph.baseActions :=
  ⟨(fleeTo_first_two_turn_filters fleeCexGraph ⟨2, 2, 0⟩).1 (by decide),
    (fleeTo_first_two_turn_filters fleeCexGraph ⟨4, 5, 1⟩).2.1 (by decide) (by decide),
    (fleeTo_first_two_turn_filters fleeCexGraph ⟨4, 5, 2⟩).2.2 (by decide) (by decide)⟩

/-- **C6** (corrected) counterexample.  With an externally imposed power
request ceiling of 5 in the Constraints, battery space 150 and ledger power 50,
the second-generation pick-up-power graph offers a pickup of 50 — the minimum
with the hardcoded 3000, not with the ceiling 5 the claim names. -/
theorem pickup_amount_ignores_power_ceiling :
    c6CexGraph.constraints.maxPowerRequest = some 5 ∧
      c6CexGraph.unitCfg.BATTERY_CAPACITY - (0 : Int) = 150 ∧
      c6CexGraph.factoryPowerAvailabilityTracker.getPowerAvailable
          (c6CexGraph.board.closestPlayerFactory ⟨4, 4⟩) 0 = 50 ∧
      UnitAction.pickup 50 .power ∈ c6CexGraph.potentialActions ⟨4, 4, 0, 0, 0⟩ ∧
      UnitAction.pickup 5 .power ∉ c6CexGraph.potentialActions ⟨4, 4, 0, 0, 0⟩ ∧
      (50 : Int) ≠ min (min 150 50) 5 := by
  decide

/-- **C6** (corrected), amended claim.  In the second-generation
pick-up-power graph the offered amount is the minimum of battery space left,
the ledger power of the closest factory at that turn, and the constant 3000;
a pickup is offered exactly on player factory tiles with a nonzero such
minimum.  The externally imposed power-request ceiling is applied in the
first-generation graph instead, where `__post_init__` caps the pickup goal. -/
theorem pickup_amount_formula :
    (∀ (g : V2.PickupPowerGraph) (c : ResourcePowerTimeCoordinate),
        g.pickupAmount c =
            min (min (g.unitCfg.BATTERY_CAPACITY - c.p)
                (g.factoryPowerAvailabilityTracker.getPowerAvailable
                  (g.board.closestPlayerFactory c.xy) c.t)) 3000 ∧
          (∀ m r, UnitAction.pickup m r ∈ g.potentialActions c →
            g.board.isPlayerFactoryTile c.xy = true ∧ m = g.pickupAmount c ∧ r = .power ∧
              g.pickupAmount c ≠ 0) ∧
          (g.board.isPlayerFactoryTile c.xy = true → g.pickupAmount c ≠ 0 →
            UnitAction.pickup (g.pickupAmount c) .power ∈ g.potentialActions c)) ∧
      ∀ (gv : V1.PickupPowerGraph) (m : Int), gv.constraints.maxPowerRequest = some m →
        m ≠ 0 → m < gv.powerPickupGoal → gv.effectivePickupGoal = m := by
  constructor
  · intro g c
    refine ⟨rfl, ?_, ?_⟩
    · intro m r hmem
      unfold V2.PickupPowerGraph.potentialActions at hmem
      split at hmem
      case isTrue hf =>
        split at hmem
        case isTrue hz =>
          rcases List.mem_cons.mp hmem with h | h
          · injection h with h1 h2
            exact ⟨hf, h1, h2, hz⟩
          · simp [Direction.all] at h
        case isFalse hz => simp [Direction.all] at hmem
      case isFalse hf => simp [Direction.all] at hmem
    · intro hf hz
      unfold V2.PickupPowerGraph.potentialActions
      rw [if_pos hf, if_pos hz]
      exact List.mem_cons_self _ _
  · intro gv m hm hz hlt
    unfold V1.PickupPowerGraph.effectivePickupGoal
    rw [hm]
    simp [hz, hlt]

/-- Witness for C6 (amended) at a concrete on-factory state of the concrete
graph with a nonzero minimum. -/
theorem pickup_amount_formula_witness :
    UnitAction.pickup (c6CexGraph.pickupAmount ⟨4, 4, 0, 0, 0⟩) .power ∈
      c6CexGraph.potentialActions ⟨4, 4, 0, 0, 0⟩ :=
  (pickup_amount_formula.1 c6CexGraph ⟨4, 4, 0, 0, 0⟩).2.2 (by decide) (by decide)

/-- **C7** (confirmed).  For every graph interface and every start state that
already satisfies the goal test, the budgeted search returns the empty action
list: the start is popped first, satisfies the goal, and the predecessor walk
from it yields no actions. -/
theorem search_returns_empty_when_start_is_goal :
    ∀ {σ : Type} [DecidableEq σ] (g : V2.SearchGraph σ) (start : σ) (budget : Nat),
      g.completesGoal start = true →
        V2.getActionsToCompleteGoal g start budget = .ok [] := by
  intro σ _ g start budget h
  unfold V2.getActionsToCompleteGoal V2.findOptimalSolution V2.initSearchSt
  simp only [Nat.sub_zero]
  simp [V2.searchLoopAux, V2.popMin, h, V2.getSolutionActions, Except.map]

/-- Witness for C7: the open-board move-to graph started on its goal tile. -/
theorem search_returns_empty_when_start_is_goal_witness :
    V2.getActionsToCompleteGoal (V2.MoveToGraph.toSearchGraph mtOpenGraph) ⟨3, 3, 7⟩ 100 =
      .ok [] :=
  search_returns_empty_when_start_is_goal (V2.MoveToGraph.toSearchGraph mtOpenGraph) ⟨3, 3, 7⟩
    100 (by decide)

/-- `popMin` returns `none` exactly on the empty queue. -/
theorem popMin_eq_none_iff {π σ : Type} [LinearOrder π] (l : List (π × σ)) :
    V2.popMin l = none ↔ l = [] := by
  cases l with
  | nil => simp [V2.popMin]
  | cons x xs =>
      have hx : V2.popMin (x :: xs) =
          match V2.popMin xs with
          | none => some (x, [])
          | some (m, rest) => if x.1 ≤ m.1 then some (x, xs) else some (m, x :: rest) := rfl
      rw [hx]
      cases h : V2.popMin xs with
      | none => simp
      | some m =>
          obtain ⟨mm, rest⟩ := m
          by_cases hle : x.1 ≤ mm.1 <;> simp [hle]

/-- **C5** (confirmed).  The budgeted search has exactly three outcomes; the
frontier-exhaustion error and the budget-exceeded error are distinct
constructors raised in exactly those situations, and all three outcomes are
realized by concrete graphs. -/
theorem search_outcome_trichotomy :
    (∀ {σ : Type} [DecidableEq σ] (g : V2.SearchGraph σ) (start : σ) (budget : Nat),
        V2.getActionsToCompleteGoal g start budget = .error .noSolutionError ∨
          V2.getActionsToCompleteGoal g start budget = .error .solutionNotFoundWithinBudgetError ∨
            ∃ acts, V2.getActionsToCompleteGoal g start budget = .ok acts) ∧
      V2.SearchError.noSolutionError ≠ V2.SearchError.solutionNotFoundWithinBudgetError ∧
      (∀ {σ : Type} [DecidableEq σ] (g : V2.SearchGraph σ) (budget i : Nat)
          (st : V2.SearchSt σ), st.frontier = [] →
        V2.findOptimalSolution g budget i st = .error .noSolutionError) ∧
      (∀ {σ : Type} [DecidableEq σ] (g : V2.SearchGraph σ) (budget i : Nat)
          (st : V2.SearchSt σ), st.frontier ≠ [] → budget < i →
        V2.findOptimalSolution g budget i st = .error .solutionNotFoundWithinBudgetError) ∧
      V2.getActionsToCompleteGoal (V2.MoveToGraph.toSearchGraph mtDeadGraph) ⟨0, 0, 0⟩ 10 =
        .error .noSolutionError ∧
      V2.getActionsToCompleteGoal (V2.MoveToGraph.toSearchGraph mtOpenGraph) ⟨0, 0, 0⟩ 0 =
        .error .solutionNotFoundWithinBudgetError ∧
      V2.getActionsToCompleteGoal (V2.MoveToGraph.toSearchGraph mtOpenGraph) ⟨3, 2, 0⟩ 100 =
        .ok [.move .down] := by
  refine ⟨?_, by decide, ?_, ?_, by with_unfolding_all decide, by with_unfolding_all decide, by with_unfolding_all decide⟩
  · intro σ inst g start budget
    rcases h : V2.getActionsToCompleteGoal g start budget with e | acts
    · cases e
      · exact Or.inl rfl
      · exact Or.inr (Or.inl rfl)
    · exact Or.inr (Or.inr ⟨acts, rfl⟩)
  · intro σ inst g budget i st hst
    have h0 : V2.popMin st.frontier = none := (popMin_eq_none_iff _).mpr hst
    unfold V2.findOptimalSolution
    cases hf : budget + 1 - i <;> simp [V2.searchLoopAux, h0]
  · intro σ inst g budget i st hst hb
    unfold V2.findOptimalSolution
    have hf : budget + 1 - i = 0 := by omega
    rw [hf]
    rcases h : V2.popMin st.frontier with _ | pr
    · exact absurd ((popMin_eq_none_iff _).mp h) hst
    · simp [V2.searchLoopAux, h]

/-- Witness for C5: the branch characterizations applied at concrete search
states. -/
theorem search_outcome_trichotomy_witness :
    V2.findOptimalSolution (V2.MoveToGraph.toSearchGraph mtOpenGraph) 7 3
        { frontier := [], cameFrom := [], costSoFar := [] } =
      .error .noSolutionError ∧
      V2.findOptimalSolution (V2.MoveToGraph.toSearchGraph mtOpenGraph) 7 9
          { frontier := [(0, ⟨0, 0, 0⟩)], cameFrom := [], costSoFar := [] } =
        .error .solutionNotFoundWithinBudgetError :=
  ⟨search_outcome_trichotomy.2.2.1 (V2.MoveToGraph.toSearchGraph mtOpenGraph) 7 3 _ rfl,
    search_outcome_trichotomy.2.2.2.1 (V2.MoveToGraph.toSearchGraph mtOpenGraph) 7 9 _
      (by decide) (by decide)⟩

/-! ### C4: the binary dig search against linear simulation -/

/-- One unfolding of the binary-search loop. -/
theorem findMaxDigsLoop_eq (P : Nat → Bool) (low high : Nat) :
    Goals.findMaxDigsLoop P low high =
      if low < high then
        let mid0 := (high + low) / 2
        let mid := if mid0 = low then mid0 + 1 else mid0
        if P mid then Goals.findMaxDigsLoop P mid high
        else Goals.findMaxDigsLoop P low (mid - 1)
      else low := by
  rw [Goals.findMaxDigsLoop]

/-- The binary-search loop returns a count `r` that is feasible (or zero), has
an infeasible successor (or is the cap), and stays within the cap. -/
theorem findMaxDigsLoop_char (P : Nat → Bool) (N : Nat) :
    ∀ fuel low high, high - low ≤ fuel → low ≤ high → high ≤ N →
      (low = 0 ∨ P low = true) → (P (high + 1) = false ∨ high = N) →
      (Goals.findMaxDigsLoop P low high = 0 ∨ P (Goals.findMaxDigsLoop P low high) = true) ∧
        (P (Goals.findMaxDigsLoop P low high + 1) = false ∨
          Goals.findMaxDigsLoop P low high = N) ∧
        Goals.findMaxDigsLoop P low high ≤ N := by
  intro fuel
  induction fuel with
  | zero =>
      intro low high h1 h2 h3 h4 h5
      have heq : low = high := by omega
      have hr : Goals.findMaxDigsLoop P low high = low := by
        rw [findMaxDigsLoop_eq]
        have : ¬low < high := by omega
        simp [this]
      rw [hr]
      subst heq
      exact ⟨h4, h5, h3⟩
  | succ fuel ih =>
      intro low high h1 h2 h3 h4 h5
      by_cases hlt : low < high
      · rw [findMaxDigsLoop_eq]
        simp only [hlt, if_true]
        have hmid : low < (if (high + low) / 2 = low then (high + low) / 2 + 1
            else (high + low) / 2) ∧
            (if (high + low) / 2 = low then (high + low) / 2 + 1 else (high + low) / 2) ≤
              high := by
          split <;> omega
        by_cases hp :
            P (if (high + low) / 2 = low then (high + low) / 2 + 1 else (high + low) / 2) = true
        · simp only [hp, if_true]
          exact ih _ high (by omega) (by omega) h3 (Or.inr hp) h5
        · rw [if_neg hp]
          have hp2 : P (if (high + low) / 2 = low then (high + low) / 2 + 1
              else (high + low) / 2) = false := by
            simpa using hp
          have hsucc :
              (if (high + low) / 2 = low then (high + low) / 2 + 1 else (high + low) / 2) - 1 +
                1 = if (high + low) / 2 = low then (high + low) / 2 + 1
                  else (high + low) / 2 := by omega
          refine ih low _ (by omega) (by omega) (by omega) h4 (Or.inl ?_)
          rw [hsucc]
          exact hp2
      · have hr : Goals.findMaxDigsLoop P low high = low := by
          rw [findMaxDigsLoop_eq]
          simp [hlt]
        have heq : low = high := by omega
        rw [hr]
        subst heq
        exact ⟨h4, h5, h3⟩

/-- The linear scan returns a count `r` that is feasible (or its starting
point), has an infeasible successor (or exhausts its fuel), and stays within
its range. -/
theorem linearScanGo_char (P : Nat → Bool) :
    ∀ fuel cur, (cur = 0 ∨ P cur = true) →
      (Goals.linearScanGo P cur fuel = 0 ∨ P (Goals.linearScanGo P cur fuel) = true) ∧
        (P (Goals.linearScanGo P cur fuel + 1) = false ∨
          Goals.linearScanGo P cur fuel = cur + fuel) ∧
        cur ≤ Goals.linearScanGo P cur fuel ∧ Goals.linearScanGo P cur fuel ≤ cur + fuel := by
  intro fuel
  induction fuel with
  | zero =>
      intro cur h
      simp only [Goals.linearScanGo]
      exact ⟨h, Or.inr rfl, Nat.le_refl _, Nat.le_refl _⟩
  | succ fuel ih =>
      intro cur h
      by_cases hp : P (cur + 1) = true
      · simp only [Goals.linearScanGo, hp, if_true]
        have h2 := ih (cur + 1) (Or.inr hp)
        refine ⟨h2.1, ?_, by omega, by omega⟩
        rcases h2.2.1 with hf | he
        · exact Or.inl hf
        · exact Or.inr (by omega)
      · simp only [Goals.linearScanGo]
        rw [if_neg hp]
        simp only [Bool.not_eq_true] at hp
        exact ⟨h, Or.inl hp, Nat.le_refl _, by omega⟩

/-- Under a dig-monotone predicate there is no second count satisfying the
characterization strictly above a first one. -/
theorem digCount_not_lt (P : Nat → Bool) (N r1 r2 : Nat)
    (hmono : ∀ m n, m ≤ n → n ≤ N → P n = true → P m = true)
    (c1b : P (r1 + 1) = false ∨ r1 = N) (c2a : r2 = 0 ∨ P r2 = true) (c2c : r2 ≤ N) :
    ¬r1 < r2 := by
  intro hlt
  rcases c1b with hfail | hcap
  · rcases c2a with rfl | hp2
    · omega
    · have : P (r1 + 1) = true := hmono (r1 + 1) r2 (by omega) c2c hp2
      rw [hfail] at this
      cases this
  · omega

/-- **C4** (confirmed).  For a dig-feasibility predicate that is non-increasing
in the dig count (up to the number of digs available), the binary search of
`find_max_dig_actions_can_still_reach_factory` returns the same maximal
feasible dig count — and hence the same action prefix — as the exhaustive
linear simulation that tries dig counts 0, 1, 2, ... in order; and the
first-generation linear loop `_add_max_dig_action` computes exactly that
linear-scan count (with `best_n = None` when even zero digs are infeasible). -/
theorem binary_dig_search_equals_linear_scan :
    (∀ (P : Nat → Bool) (N : Nat),
        (∀ m n, m ≤ n → n ≤ N → P n = true → P m = true) →
          Goals.findMaxDigsLoop P 0 N = Goals.linearMaxFeasibleDigs P N) ∧
      (∀ (canReach : List UnitAction → Bool) (plan actions : List UnitAction),
        (∀ m n, m ≤ n → n ≤ Goals.nrDigsInActions actions →
            canReach (plan ++ (Goals.getActionsUpToNDigs actions n).getD []) = true →
              canReach (plan ++ (Goals.getActionsUpToNDigs actions m).getD []) = true) →
          Goals.findMaxDigActionsCanStillReachFactory canReach plan actions =
            (Goals.getActionsUpToNDigs actions
                (Goals.linearMaxFeasibleDigs
                  (fun n => canReach (plan ++ (Goals.getActionsUpToNDigs actions n).getD []))
                  (Goals.nrDigsInActions actions))).getD []) ∧
      ∀ (Q : Nat → Bool) (B : Nat),
        (∀ m n, m ≤ n → n ≤ B → Q n = true → Q m = true) → Q B = false →
          Goals.addMaxDigActionBestN Q (B + 1) =
            if Q 0 = true then some (Goals.linearScanGo Q 0 B) else none := by
  have core : ∀ (P : Nat → Bool) (N : Nat),
      (∀ m n, m ≤ n → n ≤ N → P n = true → P m = true) →
        Goals.findMaxDigsLoop P 0 N = Goals.linearMaxFeasibleDigs P N := by
    intro P N hmono
    have c1 := findMaxDigsLoop_char P N N 0 N (by omega) (by omega) (by omega) (Or.inl rfl)
      (Or.inr rfl)
    have c2 := linearScanGo_char P N 0 (Or.inl rfl)
    unfold Goals.linearMaxFeasibleDigs
    have h2c : Goals.linearScanGo P 0 N ≤ N := by
      have := c2.2.2.2
      omega
    have h2b : P (Goals.linearScanGo P 0 N + 1) = false ∨ Goals.linearScanGo P 0 N = N := by
      rcases c2.2.1 with h | h
      · exact Or.inl h
      · exact Or.inr (by omega)
    have hn1 := digCount_not_lt P N (Goals.findMaxDigsLoop P 0 N) (Goals.linearScanGo P 0 N)
      hmono c1.2.1 c2.1 h2c
    have hn2 := digCount_not_lt P N (Goals.linearScanGo P 0 N) (Goals.findMaxDigsLoop P 0 N)
      hmono h2b c1.1 c1.2.2
    omega
  refine ⟨core, ?_, ?_⟩
  · intro canReach plan actions hmono
    unfold Goals.findMaxDigActionsCanStillReachFactory
    dsimp only
    rw [core _ _ hmono]
  · have ga : ∀ (Q : Nat → Bool) (fuel : Nat), ∀ n best,
        (∃ j, j ≤ fuel ∧ Q (n + j) = false) →
          Goals.addMaxDigActionGo Q (fuel + 1) n best =
            if Q n = true then some (Goals.linearScanGo Q n fuel) else best := by
      intro Q fuel
      induction fuel with
      | zero =>
          intro n best hex
          obtain ⟨j, hj, hq⟩ := hex
          have hj0 : j = 0 := by omega
          subst hj0
          simp only [Nat.add_zero] at hq
          simp [Goals.addMaxDigActionGo, hq]
      | succ fuel ih =>
          intro n best hex
          by_cases hq : Q n = true
          · have hex2 : ∃ j, j ≤ fuel ∧ Q (n + 1 + j) = false := by
              obtain ⟨j, hj, hqq⟩ := hex
              rcases Nat.eq_zero_or_pos j with rfl | hpos
              · rw [Nat.add_zero] at hqq
                rw [hq] at hqq
                cases hqq
              · exact ⟨j - 1, by omega, by rw [show n + 1 + (j - 1) = n + j by omega]; exact hqq⟩
            have hgo : Goals.addMaxDigActionGo Q (fuel + 1 + 1) n best =
                Goals.addMaxDigActionGo Q (fuel + 1) (n + 1) (some n) := by
              simp [Goals.addMaxDigActionGo, hq]
            rw [hgo, ih (n + 1) (some n) hex2]
            by_cases hq1 : Q (n + 1) = true
            · simp [hq, hq1, Goals.linearScanGo]
            · simp only [Bool.not_eq_true] at hq1
              simp [hq, hq1, Goals.linearScanGo]
          · simp only [Bool.not_eq_true] at hq
            simp [Goals.addMaxDigActionGo, hq]
    intro Q B hmono hQB
    unfold Goals.addMaxDigActionBestN
    have : B + 1 = B + 1 := rfl
    rcases Nat.eq_zero_or_pos B with rfl | hpos
    · exact ga Q 0 0 none ⟨0, Nat.le_refl _, hQB⟩
    · exact ga Q B 0 none ⟨B, Nat.le_refl _, by simpa using hQB⟩

/-- Witness for C4: three unit digs of which only two keep the plan short
enough; both searches keep exactly the first two dig actions. -/
theorem binary_dig_search_equals_linear_scan_witness :
    Goals.findMaxDigActionsCanStillReachFactory (fun l => decide (l.length ≤ 2)) []
        [.dig 1, .dig 1, .dig 1] = [.dig 1, .dig 1] :=
  (binary_dig_search_equals_linear_scan.2.1 (fun l => decide (l.length ≤ 2)) []
      [.dig 1, .dig 1, .dig 1]
      (by
        intro m n hmn hn hp
        have h3 : Goals.nrDigsInActions [.dig 1, .dig 1, .dig 1] = 3 := by decide
        rw [h3] at hn
        interval_cases n <;> interval_cases m <;> revert hp <;> decide)).trans
    (by decide)

/-! ### C3: the conflict resolver -/

/-- The fold building the first-occurrence column list preserves freedom from
duplicates. -/
theorem firstOccurrences_aux_nodup (l : List String) :
    ∀ acc : List String, acc.Nodup →
      (l.foldl (fun acc k => if acc.contains k then acc else acc ++ [k]) acc).Nodup := by
  induction l with
  | nil =>
      intro acc h
      exact h
  | cons k l ih =>
      intro acc h
      simp only [List.foldl_cons]
      by_cases hc : acc.contains k
      · rw [if_pos hc]
        exact ih acc h
      · rw [if_neg hc]
        refine ih (acc ++ [k]) ?_
        have hk : k ∉ acc := by
          intro hmem
          exact hc (List.elem_iff.mpr hmem)
        simp [List.nodup_append, h, hk]

/-- The columns of the value matrix are pairwise distinct. -/
theorem matrixColumns_nodup {α γ : Type} (key : γ → String)
    (colls : List (α × Resolver.GoalCollection γ)) :
    (Resolver.matrixColumns key colls).Nodup :=
  firstOccurrences_aux_nodup _ [] List.nodup_nil

/-- A goal retrieved by key carries that key. -/
theorem getGoal_key {γ : Type} (key : γ → String) (gc : Resolver.GoalCollection γ)
    (k : String) (g : γ) (h : gc.getGoal key k = some g) : key g = k := by
  unfold Resolver.GoalCollection.getGoal at h
  have := List.find?_some h
  simpa using this

/-- Distinct in-range column indices select distinct keys. -/
theorem goalKeysOfCols_nodup (columns : List String) (cols : List Nat)
    (hnodup : columns.Nodup) (hcols : cols.Nodup)
    (hrange : ∀ c ∈ cols, c < columns.length) :
    (Resolver.goalKeysOfCols columns cols).Nodup := by
  unfold Resolver.goalKeysOfCols
  refine List.Nodup.map_on ?_ hcols
  intro c1 h1 c2 h2 heq
  have hc1 : c1 < columns.length := hrange c1 h1
  have hc2 : c2 < columns.length := hrange c2 h2
  rw [List.get?_eq_get hc1, List.get?_eq_get hc2] at heq
  simp only [Option.getD_some] at heq
  have := (List.Nodup.get_inj_iff hnodup).mp heq
  exact congrArg Fin.val this

/-- The keys of the committed pairs form a sublist of the selected goal keys. -/
theorem resolver_keys_sublist {α γ : Type} (key : γ → String) :
    ∀ (ks : List String) (cs : List (α × Resolver.GoalCollection γ)),
      (((ks.zip cs).filterMap fun kc =>
            (kc.2.2.getGoal key kc.1).map fun g => (kc.2.1, g)).map
          fun e => key e.2).Sublist ks := by
  intro ks
  induction ks with
  | nil =>
      intro cs
      simp
  | cons k ks ih =>
      intro cs
      cases cs with
      | nil => simp
      | cons c cs =>
          simp only [List.zip_cons_cons, List.filterMap_cons]
          cases h : (c.2.getGoal key k).map fun g => (c.1, g) with
          | none => exact (ih cs).cons k
          | some e =>
              simp only [List.map_cons]
              have hk : key e.2 = k := by
                rcases Option.map_eq_some'.mp h with ⟨g, hg, rfl⟩
                exact getGoal_key key _ _ _ hg
              rw [hk]
              exact (ih cs).cons₂ k

/-- The actors of the committed pairs form a sublist of the input actors. -/
theorem resolver_actors_sublist {α γ : Type} (key : γ → String) :
    ∀ (ks : List String) (cs : List (α × Resolver.GoalCollection γ)),
      (((ks.zip cs).filterMap fun kc =>
            (kc.2.2.getGoal key kc.1).map fun g => (kc.2.1, g)).map Prod.fst).Sublist
        (cs.map Prod.fst) := by
  intro ks
  induction ks with
  | nil =>
      intro cs
      simp
  | cons k ks ih =>
      intro cs
      cases cs with
      | nil => simp
      | cons c cs =>
          simp only [List.zip_cons_cons, List.filterMap_cons, List.map_cons]
          cases h : (c.2.getGoal key k).map fun g => (c.1, g) with
          | none => exact (ih cs).cons c.1
          | some e =>
              simp only [List.map_cons]
              have he : e.1 = c.1 := by
                rcases Option.map_eq_some'.mp h with ⟨g, hg, rfl⟩
                rfl
              rw [he]
              exact (ih cs).cons₂ c.1

/-- **C3** (confirmed).  Whatever distinct in-range column selection the
external optimal assignment solver returns, the conflict resolver never
commits two different actors to goals sharing the same contested-objective
key, and each actor is committed at most once. -/
theorem resolver_commits_distinct_keys :
    ∀ {α γ : Type} (key : γ → String) (colls : List (α × Resolver.GoalCollection γ))
      (cols : List Nat),
      cols.Nodup → (∀ c ∈ cols, c < (Resolver.matrixColumns key colls).length) →
        (colls.map Prod.fst).Nodup →
        ((Resolver.resolveGoalConflicts key colls cols).map fun e => key e.2).Nodup ∧
          ((Resolver.resolveGoalConflicts key colls cols).map Prod.fst).Nodup := by
  intro α γ key colls cols hc hr ha
  constructor
  · exact ((resolver_keys_sublist key _ colls).nodup
      (goalKeysOfCols_nodup _ _ (matrixColumns_nodup key colls) hc hr))
  · exact ((resolver_actors_sublist key _ colls).nodup ha)

/-- Witness for C3 at a concrete two-actor instance with overlapping candidate
keys. -/
theorem resolver_commits_distinct_keys_witness :
    ((Resolver.resolveGoalConflicts (fun s : String => s)
          [(0, ⟨["a", "b"]⟩), (1, ⟨["a"]⟩)] [1, 0]).map fun e => e.2).Nodup ∧
      ((Resolver.resolveGoalConflicts (fun s : String => s)
          [(0, ⟨["a", "b"]⟩), (1, ⟨["a"]⟩)] [1, 0]).map Prod.fst).Nodup :=
  resolver_commits_distinct_keys (fun s : String => s) [((0 : Nat), ⟨["a", "b"]⟩), (1, ⟨["a"]⟩)]
    [1, 0] (by decide) (by decide) (by decide)

/-! ### C1: hard exclusion of forbidden states -/

/-- The element popped by `popMin` was in the queue, and the remaining queue
is contained in the original one. -/
theorem popMin_some_mem {π σ : Type} [LinearOrder π] :
    ∀ {l : List (π × σ)} {m : π × σ} {rest : List (π × σ)},
      V2.popMin l = some (m, rest) → m ∈ l ∧ ∀ x ∈ rest, x ∈ l := by
  intro l
  induction l with
  | nil =>
      intro m rest h
      simp [V2.popMin] at h
  | cons x xs ih =>
      intro m rest h
      have hx : V2.popMin (x :: xs) =
          match V2.popMin xs with
          | none => some (x, [])
          | some (m, rest) => if x.1 ≤ m.1 then some (x, xs) else some (m, x :: rest) := rfl
      rw [hx] at h
      cases hmm : V2.popMin xs with
      | none =>
          rw [hmm] at h
          injection h with h1
          rw [Prod.mk.injEq] at h1
          obtain ⟨rfl, rfl⟩ := h1
          exact ⟨List.mem_cons_self _ _, by simp⟩
      | some mr =>
          obtain ⟨mm, rr⟩ := mr
          rw [hmm] at h
          dsimp only at h
          by_cases hle : x.1 ≤ mm.1
          · rw [if_pos hle] at h
            injection h with h1
            rw [Prod.mk.injEq] at h1
            obtain ⟨rfl, rfl⟩ := h1
            exact ⟨List.mem_cons_self _ _, fun y hy => List.mem_cons_of_mem _ hy⟩
          · rw [if_neg hle] at h
            injection h with h1
            rw [Prod.mk.injEq] at h1
            obtain ⟨rfl, rfl⟩ := h1
            have hmem := ih hmm
            refine ⟨List.mem_cons_of_mem _ hmem.1, fun y hy => ?_⟩
            rcases List.mem_cons.mp hy with rfl | hy
            · exact List.mem_cons_self _ _
            · exact List.mem_cons_of_mem _ (hmem.2 y hy)

/-- `_add_node` preserves the search-state invariant when the inserted node is
allowed and the predecessor is the start or allowed. -/
theorem addNode_stateOk {σ : Type} (g : V2.SearchGraph σ) (ok : σ → Bool) (start : σ)
    (st : V2.SearchSt σ) (node : σ) (action : UnitAction) (cur : σ) (cost : ℚ)
    (hst : V2.StateOk ok start st) (hnode : ok node = true)
    (hcur : cur = start ∨ ok cur = true) :
    V2.StateOk ok start (V2.addNode g st node action cur cost) := by
  constructor
  · intro pr hpr
    rcases List.mem_cons.mp hpr with rfl | hpr
    · exact Or.inr hnode
    · exact hst.1 pr hpr
  · intro e he
    rcases List.mem_cons.mp he with rfl | he
    · exact ⟨hnode, hcur⟩
    · exact hst.2 e he

/-- One relaxation preserves the search-state invariant. -/
theorem relax_stateOk {σ : Type} [DecidableEq σ] (g : V2.SearchGraph σ) (ok : σ → Bool)
    (start cur : σ) (cost : ℚ) (st : V2.SearchSt σ) (an : UnitAction × σ)
    (hst : V2.StateOk ok start st) (hok : ok an.2 = true)
    (hcur : cur = start ∨ ok cur = true) :
    V2.StateOk ok start (V2.relax g cur cost st an) := by
  unfold V2.relax
  cases V2.lookupCost st.costSoFar an.2 with
  | none => exact addNode_stateOk g ok start st an.2 an.1 cur _ hst hok hcur
  | some old =>
      dsimp only
      split
      · exact addNode_stateOk g ok start st an.2 an.1 cur _ hst hok hcur
      · exact hst

/-- Folding relaxations over a list of allowed successors preserves the
search-state invariant. -/
theorem foldl_relax_stateOk {σ : Type} [DecidableEq σ] (g : V2.SearchGraph σ) (ok : σ → Bool)
    (start cur : σ) (cost : ℚ) (hcur : cur = start ∨ ok cur = true) :
    ∀ (l : List (UnitAction × σ)) (st : V2.SearchSt σ), (∀ an ∈ l, ok an.2 = true) →
      V2.StateOk ok start st → V2.StateOk ok start (l.foldl (V2.relax g cur cost) st) := by
  intro l
  induction l with
  | nil =>
      intro st _ hst
      exact hst
  | cons an l ih =>
      intro st hl hst
      simp only [List.foldl_cons]
      exact ih _ (fun x hx => hl x (List.mem_cons_of_mem _ hx))
        (relax_stateOk g ok start cur cost st an hst (hl an (List.mem_cons_self _ _)) hcur)

/-- Expanding a popped node inserts only allowed successors, so the invariant
is preserved — no forbidden state is ever added to the frontier. -/
theorem expandNode_stateOk {σ : Type} [DecidableEq σ] (g : V2.SearchGraph σ) (ok : σ → Bool)
    (start : σ) (hex : V2.ExcludesForbidden g ok) (cur : σ) (cost : ℚ) (st : V2.SearchSt σ)
    (hst : V2.StateOk ok start st) (hcur : cur = start ∨ ok cur = true) :
    V2.StateOk ok start (V2.expandNode g cur cost st) :=
  foldl_relax_stateOk g ok start cur cost hcur _ st
    (fun an han => hex cur an.1 an.2 han) hst

/-- The search loop preserves the invariant and, when it returns a solution,
the final node itself is the start or allowed. -/
theorem searchLoopAux_stateOk {σ : Type} [DecidableEq σ] (g : V2.SearchGraph σ) (ok : σ → Bool)
    (start : σ) (hex : V2.ExcludesForbidden g ok) :
    ∀ (fuel : Nat) (st : V2.SearchSt σ), V2.StateOk ok start st →
      ∀ fin st2, V2.searchLoopAux g fuel st = .ok (fin, st2) →
        V2.StateOk ok start st2 ∧ (fin = start ∨ ok fin = true) := by
  intro fuel
  induction fuel with
  | zero =>
      intro st hst fin st2 h
      unfold V2.searchLoopAux at h
      cases hpm : V2.popMin st.frontier with
      | none =>
          rw [hpm] at h
          cases h
      | some prr =>
          rw [hpm] at h
          cases h
  | succ fuel ih =>
      intro st hst fin st2 h
      unfold V2.searchLoopAux at h
      cases hpm : V2.popMin st.frontier with
      | none =>
          rw [hpm] at h
          cases h
      | some prr =>
          obtain ⟨pr, rest⟩ := prr
          rw [hpm] at h
          dsimp only at h
          have hpop := popMin_some_mem hpm
          have hpr : pr.2 = start ∨ ok pr.2 = true := hst.1 pr hpop.1
          have hst2 : V2.StateOk ok start { st with frontier := rest } :=
            ⟨fun q hq => hst.1 q (hpop.2 q hq), hst.2⟩
          by_cases hgoal : g.completesGoal pr.2 = true
          · rw [if_pos hgoal] at h
            injection h with h1
            rw [Prod.mk.injEq] at h1
            obtain ⟨rfl, rfl⟩ := h1
            exact ⟨hst2, hpr⟩
          · rw [if_neg hgoal] at h
            exact ih _ (expandNode_stateOk g ok start hex pr.2 _ _ hst2 hpr) fin st2 h

/-- Every state visited by the reconstructed solution is the start or
allowed. -/
theorem solutionNodes_ok {σ : Type} [DecidableEq σ] (ok : σ → Bool) (start : σ)
    (came : List (σ × UnitAction × σ))
    (hcame : ∀ e ∈ came, ok e.1 = true ∧ (e.2.2 = start ∨ ok e.2.2 = true)) :
    ∀ (fuel : Nat) (cur : σ), (cur = start ∨ ok cur = true) →
      ∀ n ∈ V2.solutionNodes came fuel cur, n = start ∨ ok n = true := by
  intro fuel
  induction fuel with
  | zero =>
      intro cur hcur n hn
      simp only [V2.solutionNodes, List.mem_singleton] at hn
      subst hn
      exact hcur
  | succ fuel ih =>
      intro cur hcur n hn
      unfold V2.solutionNodes at hn
      cases hl : V2.lookupCame came cur with
      | none =>
          rw [hl] at hn
          simp only [List.mem_singleton] at hn
          subst hn
          exact hcur
      | some ap =>
          rw [hl] at hn
          rcases List.mem_append.mp hn with h | h
          · have hprev : ap.2 = start ∨ ok ap.2 = true := by
              unfold V2.lookupCame at hl
              cases hfind : came.find? fun e => e.1 = cur with
              | none =>
                  rw [hfind] at hl
                  cases hl
              | some e =>
                  rw [hfind] at hl
                  injection hl with hl2
                  have hmem := List.mem_of_find?_eq_some hfind
                  have := (hcame e hmem).2
                  obtain rfl : e.2 = ap := hl2
                  exact this
            exact ih ap.2 hprev n h
          · simp only [List.mem_singleton] at h
            subst h
            exact hcur

/-- **C1** (corrected), amended claim.  In the second-generation engine
(`src/search/search.py`) every graph variant excludes forbidden successors
from expansion entirely — `get_valid_action_nodes` drops them before any cost
is computed — and consequently, for any graph with that exclusion property,
the search states arising from the engine never carry a forbidden state in the
frontier or in the predecessor map (except the given start), and a returned
solution visits no forbidden state beyond the start.  (The first-generation
engine of `src/agent/search.py` instead penalizes forbidden successors with an
infinite cost and does insert them into its frontier; see the
counterexample.) -/
theorem forbidden_states_never_in_frontier :
    (∀ (g : V2.MoveToGraph) (c : TimeCoordinate) (a : UnitAction) (s2 : TimeCoordinate),
        (a, s2) ∈ g.toSearchGraph.validActionNodes c →
          g.constraints.tcViolatesConstraint s2 = false) ∧
      (∀ (g : V2.TilesToClearGraph) (c : TimeCoordinate) (a : UnitAction) (s2 : TimeCoordinate),
        (a, s2) ∈ g.toSearchGraph.validActionNodes c →
          Constraints.empty.tcViolatesConstraint s2 = false) ∧
      (∀ (g : V2.EvadeConstraintsGraph) (c : TimeCoordinate) (a : UnitAction)
          (s2 : TimeCoordinate), (a, s2) ∈ g.toSearchGraph.validActionNodes c →
          g.constraints.tcViolatesConstraint s2 = false) ∧
      (∀ (g : V2.PickupPowerGraph) (c : ResourcePowerTimeCoordinate) (a : UnitAction)
          (s2 : ResourcePowerTimeCoordinate), (a, s2) ∈ g.toSearchGraph.validActionNodes c →
          g.constraints.tcViolatesConstraint s2.toTC = false) ∧
      (∀ (g : V2.TransferResourceGraph) (c : ResourcePowerTimeCoordinate) (a : UnitAction)
          (s2 : ResourcePowerTimeCoordinate), (a, s2) ∈ g.toSearchGraph.validActionNodes c →
          g.constraints.tcViolatesConstraint s2.toTC = false) ∧
      (∀ (g : V2.DigAtGraph) (c : DigTimeCoordinate) (a : UnitAction) (s2 : DigTimeCoordinate),
        (a, s2) ∈ g.toSearchGraph.validActionNodes c →
          g.constraints.tcViolatesConstraint s2.toTC = false) ∧
      ∀ {σ : Type} [DecidableEq σ] (g : V2.SearchGraph σ) (ok : σ → Bool),
        V2.ExcludesForbidden g ok →
          (∀ start : σ, V2.StateOk ok start (V2.initSearchSt start)) ∧
            (∀ (start cur : σ) (cost : ℚ) (st : V2.SearchSt σ), V2.StateOk ok start st →
              (cur = start ∨ ok cur = true) →
                V2.StateOk ok start (V2.expandNode g cur cost st)) ∧
            ∀ (start : σ) (budget : Nat) (fin : σ) (st2 : V2.SearchSt σ),
              V2.findOptimalSolution g budget 0 (V2.initSearchSt start) = .ok (fin, st2) →
                V2.StateOk ok start st2 ∧
                  ∀ n ∈ V2.solutionNodes st2.cameFrom st2.cameFrom.length fin,
                    n = start ∨ ok n = true := by
  have hfilter : ∀ {σ : Type} (toTC : σ → TimeCoordinate) (k : Constraints) (b : Board)
      (pairs : List (UnitAction × σ)) (a : UnitAction) (s2 : σ),
      (a, s2) ∈ V2.filterValid toTC k b pairs → k.tcViolatesConstraint (toTC s2) = false := by
    intro σ toTC k b pairs a s2 h
    have := (List.mem_filter.mp h).2
    simp only [Bool.and_eq_true, Bool.not_eq_true'] at this
    exact this.1
  refine ⟨?_, ?_, ?_, ?_, ?_, ?_, ?_⟩
  · intro g c a s2 h
    exact hfilter id g.constraints g.board _ a s2 h
  · intro g c a s2 h
    have := (List.mem_filter.mp h).2
    simp only [Bool.and_eq_true, Bool.not_eq_true'] at this
    exact this.1.1
  · intro g c a s2 h
    exact hfilter id g.constraints g.board _ a s2 h
  · intro g c a s2 h
    exact hfilter ResourcePowerTimeCoordinate.toTC g.constraints g.board _ a s2 h
  · intro g c a s2 h
    exact hfilter ResourcePowerTimeCoordinate.toTC g.constraints g.board _ a s2 h
  · intro g c a s2 h
    exact hfilter DigTimeCoordinate.toTC g.constraints g.board _ a s2 h
  · intro σ inst g ok hex
    refine ⟨?_, ?_, ?_⟩
    · intro start
      constructor
      · intro pr hpr
        simp only [V2.initSearchSt, List.mem_singleton] at hpr
        subst hpr
        exact Or.inl rfl
      · intro e he
        simp [V2.initSearchSt] at he
    · intro start cur cost st hst hcur
      exact expandNode_stateOk g ok start hex cur cost st hst hcur
    · intro start budget fin st2 hrun
      have hinit : V2.StateOk ok start (V2.initSearchSt start) := by
        constructor
        · intro pr hpr
          simp only [V2.initSearchSt, List.mem_singleton] at hpr
          subst hpr
          exact Or.inl rfl
        · intro e he
          simp [V2.initSearchSt] at he
      have := searchLoopAux_stateOk g ok start hex _ _ hinit fin st2 hrun
      exact ⟨this.1, solutionNodes_ok ok start st2.cameFrom this.1.2 _ fin this.2⟩

/-- Witness for C1 (amended): the invariant holds of the initial state of the
spec's forbidden-tile scenario and is preserved by expanding its start node,
with the exclusion hypothesis discharged by the move-to conjunct. -/
theorem forbidden_states_never_in_frontier_witness :
    V2.StateOk (fun s => !mtConstrainedGraph.constraints.tcViolatesConstraint s) ⟨2, 2, 0⟩
      (V2.expandNode mtConstrainedGraph.toSearchGraph ⟨2, 2, 0⟩ 0
        (V2.initSearchSt ⟨2, 2, 0⟩)) := by
  have hpack := forbidden_states_never_in_frontier.2.2.2.2.2.2
    mtConstrainedGraph.toSearchGraph
    (fun s => !mtConstrainedGraph.constraints.tcViolatesConstraint s)
    (fun s a s2 h => by
      show (!mtConstrainedGraph.constraints.tcViolatesConstraint s2) = true
      rw [forbidden_states_never_in_frontier.1 mtConstrainedGraph s a s2 h]
      rfl)
  exact hpack.2.1 ⟨2, 2, 0⟩ ⟨2, 2, 0⟩ 0 _ (hpack.1 ⟨2, 2, 0⟩) (Or.inl rfl)

/-- **C1** (corrected) counterexample.  The first-generation engine
(`src/agent/search.py`), whose `Graph.cost` the claim cites, runs the
corridor scenario to a successful solution — waiting out the forbidden tile —
while the forbidden state (1, 0, 1) sits in its frontier (with infinite
priority) from the first expansion to the very end of the run.  So the claim,
quantified over every graph variant of both engines, is false: forbidden
successors are penalized with infinite cost there, not excluded. -/
theorem forbidden_state_in_frontier_v1 :
    V1.getActionsToCompleteGoal (V1.MoveToGraph.toSearchGraph v1CexGraph) ⟨0, 0, 0⟩ 10 =
        some [.move .center, .move .right, .move .right] ∧
      (V1.findOptimalSolution (V1.MoveToGraph.toSearchGraph v1CexGraph) 10 none
            (V1.initSt ⟨0, 0, 0⟩)).map
          (fun r => decide ((⊤, (⟨1, 0, 1⟩ : TimeCoordinate)) ∈ r.2.frontier)) =
        some true ∧
      v1CexGraph.constraints.tcViolatesConstraint ⟨1, 0, 1⟩ = true := by
  refine ⟨by with_unfolding_all decide, by with_unfolding_all decide, by decide⟩

/-! ### C2: admissibility of the heuristics -/

/-- The Manhattan distance from a point to itself is zero. -/
theorem dist_self (c : Coordinate) : dist c c = 0 := by
  simp [dist]

/-- Distance zero characterizes equal coordinates. -/
theorem dist_eq_zero_iff (a b : Coordinate) : dist a b = 0 ↔ a.x = b.x ∧ a.y = b.y := by
  unfold dist
  omega

/-- Manhattan triangle inequality. -/
theorem dist_triangle (a b c : Coordinate) : dist a c ≤ dist a b + dist b c := by
  unfold dist
  omega

/-- Coordinates with equal fields are equal. -/
theorem coordinate_ext {a b : Coordinate} (hx : a.x = b.x) (hy : a.y = b.y) : a = b := by
  cases a
  cases b
  simp only at hx hy
  rw [hx, hy]

/-- A single move action displaces the unit by at most one tile. -/
theorem dist_move_step (x y : Int) (dir : Direction) (g : Coordinate) :
    dist ⟨x, y⟩ g ≤ dist ⟨x + dir.dx * 1, y + dir.dy * 1⟩ g + 1 := by
  cases dir <;> simp [dist, Direction.dx, Direction.dy] <;> omega

/-- A single move action covers at most one tile of distance. -/
theorem dist_move_step_le_one (x y : Int) (dir : Direction) :
    dist ⟨x, y⟩ ⟨x + dir.dx * 1, y + dir.dy * 1⟩ ≤ 1 := by
  cases dir <;> simp [dist, Direction.dx, Direction.dy]

/-- The spatial projection of a center move is unchanged. -/
theorem addAction_center_xy (c : TimeCoordinate) :
    (c.addAction (.move .center)).xy = c.xy := by
  simp [TimeCoordinate.addAction, TimeCoordinate.xy, UnitAction.unitDirection, Direction.dx,
    Direction.dy, UnitAction.reps]

/-- The closest tile of a nonempty list belongs to the list. -/
theorem closestTile_mem (c : Coordinate) : ∀ (ts : List Coordinate), ts ≠ [] →
    closestTile c ts ∈ ts := by
  intro ts
  induction ts with
  | nil =>
      intro h
      exact absurd rfl h
  | cons f ts ih =>
      intro _
      cases ts with
      | nil => simp [closestTile]
      | cons f2 fs =>
          simp only [closestTile]
          split
          · exact List.mem_cons_self _ _
          · exact List.mem_cons_of_mem _ (ih (by simp))

/-- The closest tile minimizes the distance over the list. -/
theorem closestTile_min (c : Coordinate) : ∀ (ts : List Coordinate), ∀ f ∈ ts,
    dist c (closestTile c ts) ≤ dist c f := by
  intro ts
  induction ts with
  | nil =>
      intro f hf
      simp at hf
  | cons g ts ih =>
      intro f hf
      cases ts with
      | nil =>
          simp only [List.mem_singleton] at hf
          subst hf
          simp [closestTile]
      | cons f2 fs =>
          simp only [closestTile]
          rcases List.mem_cons.mp hf with rfl | hf2
          · split
            · exact Nat.le_refl _
            · omega
          · have hrest := ih f hf2
            split
            · omega
            · exact hrest

/-- Membership makes the closest-tile distance zero. -/
theorem closest_dist_zero_of_mem {c : Coordinate} {ts : List Coordinate} (h : c ∈ ts) :
    dist c (closestTile c ts) = 0 :=
  Nat.le_antisymm (dist_self c ▸ closestTile_min c ts c h) (Nat.zero_le _)

/-- The closest-tile distance is 1-Lipschitz in the query point. -/
theorem closest_dist_lipschitz (ts : List Coordinate) (c c2 : Coordinate) :
    dist c (closestTile c ts) ≤ dist c2 (closestTile c2 ts) + dist c c2 := by
  cases ts with
  | nil =>
      simp [closestTile, dist_self]
  | cons f fs =>
      have hmem : closestTile c2 (f :: fs) ∈ f :: fs := closestTile_mem c2 _ (by simp)
      have h1 := closestTile_min c (f :: fs) _ hmem
      have h2 := dist_triangle c c2 (closestTile c2 (f :: fs))
      omega

/-- The action power cost is nonnegative. -/
theorem actionPowerCost_nonneg (a : UnitAction) (cfg : UnitConfig) (c : Coordinate) (b : Board) :
    0 ≤ actionPowerCost a cfg c b :=
  le_max_left 0 _

/-- The base danger cost is nonnegative. -/
theorem baseDangerCost_nonneg (ut : UnitType) (b : Board) (tc : TimeCoordinate) :
    0 ≤ baseDangerCost ut b tc := by
  unfold baseDangerCost
  cases ut
  · rcases b.minDisToOppHeavy tc.xy with _ | _ | n <;> norm_num
  · norm_num

/-- The second-generation cost is at least the time-to-power cost. -/
theorem graphCost_ge_ttp (b : Board) (ttp : ℚ) (cfg : UnitConfig) (ut : UnitType)
    (k : Constraints) (a : UnitAction) (toC : TimeCoordinate)
    (hd : 0 ≤ k.danger toC) : ttp ≤ V2.graphCost b ttp cfg ut k a toC := by
  unfold V2.graphCost Constraints.getDangerCost
  have h1 := actionPowerCost_nonneg a cfg toC.xy b
  have h2 := baseDangerCost_nonneg ut b toC
  linarith

/-- The second-generation cost is nonnegative. -/
theorem graphCost_nonneg (b : Board) (ttp : ℚ) (cfg : UnitConfig) (ut : UnitType)
    (k : Constraints) (a : UnitAction) (toC : TimeCoordinate)
    (httl : 0 ≤ ttp) (hd : 0 ≤ k.danger toC) : 0 ≤ V2.graphCost b ttp cfg ut k a toC :=
  le_trans httl (graphCost_ge_ttp b ttp cfg ut k a toC hd)

/-- The move-onto cost is at least the configured move cost. -/
theorem moveOntoCost_ge (cfg : UnitConfig) (c : Coordinate) (b : Board)
    (hr : 0 ≤ cfg.RUBBLE_MOVEMENT_COST) (hrub : 0 ≤ b.rubble c) :
    cfg.MOVE_COST ≤ moveOntoCost cfg c b := by
  unfold moveOntoCost
  nlinarith

/-- The power cost of a non-center move is exactly the move-onto cost of the
target tile. -/
theorem actionPowerCost_move (cfg : UnitConfig) (c : Coordinate) (b : Board) (dir : Direction)
    (hdir : dir ≠ .center) (hm : 0 ≤ cfg.MOVE_COST) (hr : 0 ≤ cfg.RUBBLE_MOVEMENT_COST)
    (hrub : 0 ≤ b.rubble c) :
    actionPowerCost (.move dir) cfg c b = moveOntoCost cfg c b := by
  unfold actionPowerCost UnitAction.getPowerChangeByEndC moveOntoCost
  cases dir
  · exact absurd rfl hdir
  all_goals
    dsimp only
    rw [max_eq_right (by nlinarith)]
    ring

/-- The cost of a non-center move is at least the time-to-power cost plus the
move-onto cost of the target tile. -/
theorem graphCost_move_ge (b : Board) (ttp : ℚ) (cfg : UnitConfig) (ut : UnitType)
    (k : Constraints) (dir : Direction) (toC : TimeCoordinate) (hdir : dir ≠ .center)
    (hm : 0 ≤ cfg.MOVE_COST) (hr : 0 ≤ cfg.RUBBLE_MOVEMENT_COST) (hrub : 0 ≤ b.rubble toC.xy)
    (hd : 0 ≤ k.danger toC) :
    ttp + moveOntoCost cfg toC.xy b ≤ V2.graphCost b ttp cfg ut k (.move dir) toC := by
  unfold V2.graphCost Constraints.getDangerCost
  rw [actionPowerCost_move cfg toC.xy b dir hdir hm hr hrub]
  have h2 := baseDangerCost_nonneg ut b toC
  linarith

/-- The cost of a unit dig is at least the dig cost plus the time-to-power
cost. -/
theorem graphCost_dig_ge (b : Board) (ttp : ℚ) (cfg : UnitConfig) (ut : UnitType)
    (k : Constraints) (toC : TimeCoordinate) (hdig : 0 ≤ cfg.DIG_COST)
    (hd : 0 ≤ k.danger toC) :
    cfg.DIG_COST + ttp ≤ V2.graphCost b ttp cfg ut k (.dig 1) toC := by
  unfold V2.graphCost Constraints.getDangerCost actionPowerCost UnitAction.getPowerChangeByEndC
  have h2 := baseDangerCost_nonneg ut b toC
  rw [max_eq_right (by push_cast; nlinarith)]
  push_cast
  linarith

/-- The goal-graph distance heuristic is nonnegative. -/
theorem gdh_nonneg (ttp : ℚ) (cfg : UnitConfig) (goal : Coordinate) (b : Board)
    (node : Coordinate) (httl : 0 ≤ ttp) (hm : 0 ≤ cfg.MOVE_COST)
    (hr : 0 ≤ cfg.RUBBLE_MOVEMENT_COST) (hrub : 0 ≤ b.rubble goal) :
    0 ≤ V2.goalDistanceHeuristic ttp cfg goal b node := by
  unfold V2.goalDistanceHeuristic V2.lastActionCost moveOntoCost
  dsimp only
  split
  · exact le_refl 0
  · rename_i hn
    have h1 : (1 : ℚ) ≤ (dist node goal : ℚ) := by
      exact_mod_cast Nat.one_le_iff_ne_zero.mpr hn
    nlinarith

/-- Core consistency step for the goal-graph distance heuristic: a step that
loses at most one tile of distance and costs at least the time-to-power cost
plus the move-onto cost of its target does not decrease `cost + heuristic`. -/
theorem gdh_step (ttp : ℚ) (cfg : UnitConfig) (goal : Coordinate) (b : Board)
    (sxy s2xy : Coordinate) (cost : ℚ) (httl : 0 ≤ ttp) (hm : 0 ≤ cfg.MOVE_COST)
    (hr : 0 ≤ cfg.RUBBLE_MOVEMENT_COST) (hrubg : 0 ≤ b.rubble goal)
    (hrub2 : 0 ≤ b.rubble s2xy) (hdist : dist sxy goal ≤ dist s2xy goal + 1)
    (hcost : ttp + moveOntoCost cfg s2xy b ≤ cost) :
    V2.goalDistanceHeuristic ttp cfg goal b sxy ≤
      cost + V2.goalDistanceHeuristic ttp cfg goal b s2xy := by
  have hcost0 : 0 ≤ cost := by
    have := moveOntoCost_ge cfg s2xy b hr hrub2
    linarith
  by_cases hn : dist sxy goal = 0
  · have h0 : V2.goalDistanceHeuristic ttp cfg goal b sxy = 0 := by
      unfold V2.goalDistanceHeuristic
      rw [if_pos hn]
    rw [h0]
    have := gdh_nonneg ttp cfg goal b s2xy httl hm hr hrubg
    linarith
  · by_cases hn2 : dist s2xy goal = 0
    · have hgoal2 : s2xy = goal :=
        coordinate_ext ((dist_eq_zero_iff _ _).mp hn2).1 ((dist_eq_zero_iff _ _).mp hn2).2
      have hone : dist sxy goal = 1 := by omega
      have hL : V2.goalDistanceHeuristic ttp cfg goal b sxy = ttp + moveOntoCost cfg goal b := by
        unfold V2.goalDistanceHeuristic V2.lastActionCost
        rw [if_neg hn, hone]
        push_cast
        ring
      have hR : V2.goalDistanceHeuristic ttp cfg goal b s2xy = 0 := by
        unfold V2.goalDistanceHeuristic
        rw [if_pos hn2]
      rw [hL, hR, ← hgoal2]
      linarith
    · have hL : V2.goalDistanceHeuristic ttp cfg goal b sxy =
          ((dist sxy goal : ℚ) - 1) * (ttp + cfg.MOVE_COST) + V2.lastActionCost ttp cfg goal b := by
        unfold V2.goalDistanceHeuristic
        rw [if_neg hn]
      have hR : V2.goalDistanceHeuristic ttp cfg goal b s2xy =
          ((dist s2xy goal : ℚ) - 1) * (ttp + cfg.MOVE_COST) +
            V2.lastActionCost ttp cfg goal b := by
        unfold V2.goalDistanceHeuristic
        rw [if_neg hn2]
      rw [hL, hR]
      have hdq : (dist sxy goal : ℚ) ≤ (dist s2xy goal : ℚ) + 1 := by exact_mod_cast hdist
      have hu : (0 : ℚ) ≤ ttp + cfg.MOVE_COST := by linarith
      have hmono := moveOntoCost_ge cfg s2xy b hr hrub2
      nlinarith

/-- Admissibility follows from step consistency and a nonpositive heuristic at
goal states. -/
theorem admissible_of_consistent {σ : Type} (g : V2.SearchGraph σ)
    (hcons : ∀ s a s2, (a, s2) ∈ g.validActionNodes s →
      g.heuristic s ≤ g.cost a s2 + g.heuristic s2)
    (hgoal : ∀ s, g.completesGoal s = true → g.heuristic s ≤ 0) : V2.Admissible g := by
  intro s s2 k hp hg
  induction hp with
  | refl s => exact hgoal s hg
  | step hmem htail ih =>
      have h1 := hcons _ _ _ hmem
      have h2 := ih hg
      linarith

/-- Paths through nonnegative-cost steps have nonnegative total cost. -/
theorem pathTo_cost_nonneg {σ : Type} (g : V2.SearchGraph σ)
    (hc : ∀ s a s2, (a, s2) ∈ g.validActionNodes s → 0 ≤ g.cost a s2) :
    ∀ {s s2 : σ} {k : ℚ}, V2.PathTo g s s2 k → 0 ≤ k := by
  intro s s2 k hp
  induction hp with
  | refl s => exact le_refl 0
  | step hmem htail ih =>
      have := hc _ _ _ hmem
      linarith

/-- Membership in a map of actions to (action, successor) pairs. -/
theorem mem_map_pair {σ : Type} {acts : List UnitAction} {f : UnitAction → σ} {a : UnitAction}
    {s2 : σ} (h : (a, s2) ∈ acts.map fun x => (x, f x)) : a ∈ acts ∧ s2 = f a := by
  rcases List.mem_map.mp h with ⟨x, hx, hxe⟩
  injection hxe with h1 h2
  subst h1
  subst h2
  exact ⟨hx, rfl⟩

/-- Every element of a move-action list is a move. -/
theorem mem_moveActions {b : Bool} {a : UnitAction} (h : a ∈ V2.moveActions b) :
    ∃ dir, a = .move dir := by
  unfold V2.moveActions at h
  split at h <;> (rcases List.mem_map.mp h with ⟨d, _, rfl⟩; exact ⟨d, rfl⟩)

/-- The spatial projection of a move successor. -/
theorem addAction_move_xy (c : TimeCoordinate) (dir : Direction) :
    (c.addAction (.move dir)).xy = ⟨c.x + dir.dx * 1, c.y + dir.dy * 1⟩ := rfl

/-- Decomposition of a valid action node of a second-generation move-to
graph. -/
theorem moveTo_valid_mem {g : V2.MoveToGraph} {c : TimeCoordinate} {a : UnitAction}
    {s2 : TimeCoordinate} (h : (a, s2) ∈ g.toSearchGraph.validActionNodes c) :
    (∃ dir, a = .move dir) ∧ s2 = c.addAction a := by
  dsimp only [V2.MoveToGraph.toSearchGraph] at h
  unfold V2.MoveToGraph.validActionNodes V2.filterValid at h
  have h1 := (List.mem_filter.mp h).1
  rcases mem_map_pair h1 with ⟨ha, hs⟩
  exact ⟨mem_moveActions ha, hs⟩

/-- Consistency of the move-to heuristic. -/
theorem moveTo_consistent (g : V2.MoveToGraph)
    (hp : V2.CostParamsOk g.board g.timeToPowerCost g.unitCfg g.constraints) :
    ∀ s a s2, (a, s2) ∈ g.toSearchGraph.validActionNodes s →
      g.toSearchGraph.heuristic s ≤ g.toSearchGraph.cost a s2 + g.toSearchGraph.heuristic s2 := by
  obtain ⟨httl, hm, hr, hdig, hrub, hd⟩ := hp
  intro s a s2 hmem
  obtain ⟨⟨dir, rfl⟩, rfl⟩ := moveTo_valid_mem hmem
  dsimp only [V2.MoveToGraph.toSearchGraph]
  by_cases hc : dir = .center
  · subst hc
    rw [addAction_center_xy]
    have hcost := graphCost_nonneg g.board g.timeToPowerCost g.unitCfg g.unitType g.constraints
      (.move .center) (s.addAction (.move .center)) httl (hd _)
    linarith
  · have hdist : dist s.xy g.goal ≤ dist (s.addAction (.move dir)).xy g.goal + 1 := by
      rw [addAction_move_xy]
      exact dist_move_step s.x s.y dir g.goal
    have hcost := graphCost_move_ge g.board g.timeToPowerCost g.unitCfg g.unitType g.constraints
      dir (s.addAction (.move dir)) hc hm hr (hrub _) (hd _)
    exact gdh_step g.timeToPowerCost g.unitCfg g.goal g.board s.xy
      (s.addAction (.move dir)).xy _ httl hm hr (hrub _) (hrub _) hdist hcost

/-- At its goal states the move-to heuristic is zero. -/
theorem moveTo_goal_bounded (g : V2.MoveToGraph) :
    ∀ s, g.toSearchGraph.completesGoal s = true → g.toSearchGraph.heuristic s ≤ 0 := by
  intro s h
  dsimp only [V2.MoveToGraph.toSearchGraph] at h ⊢
  unfold V2.MoveToGraph.nodeCompletesGoal at h
  simp only [Coordinate.pyEq, Bool.and_eq_true, beq_iff_eq] at h
  have hco : dist s.xy g.goal = 0 := by
    rw [dist_eq_zero_iff]
    exact ⟨h.1.symm, h.2.symm⟩
  unfold V2.goalDistanceHeuristic
  rw [if_pos hco]

/-- Decomposition of a valid action node of a tiles-to-clear graph: a
non-center move. -/
theorem tilesToClear_valid_mem {g : V2.TilesToClearGraph} {c : TimeCoordinate} {a : UnitAction}
    {s2 : TimeCoordinate} (h : (a, s2) ∈ g.toSearchGraph.validActionNodes c) :
    (∃ dir, a = .move dir ∧ dir ≠ .center) ∧ s2 = c.addAction a := by
  dsimp only [V2.TilesToClearGraph.toSearchGraph] at h
  unfold V2.TilesToClearGraph.validActionNodes at h
  have h1 := (List.mem_filter.mp h).1
  rcases mem_map_pair h1 with ⟨ha, hs⟩
  unfold V2.TilesToClearGraph.potentialActions at ha
  rcases List.mem_map.mp ha with ⟨d, hd, rfl⟩
  have hdc := (List.mem_filter.mp hd).2
  refine ⟨⟨d, rfl, ?_⟩, hs⟩
  simpa using hdc

/-- Consistency of the tiles-to-clear heuristic. -/
theorem tilesToClear_consistent (g : V2.TilesToClearGraph)
    (hp : V2.CostParamsOk g.board V2.TilesToClearGraph.timeToPowerCost g.unitCfg
      Constraints.empty) :
    ∀ s a s2, (a, s2) ∈ g.toSearchGraph.validActionNodes s →
      g.toSearchGraph.heuristic s ≤ g.toSearchGraph.cost a s2 + g.toSearchGraph.heuristic s2 := by
  obtain ⟨httl, hm, hr, hdig, hrub, hd⟩ := hp
  intro s a s2 hmem
  obtain ⟨⟨dir, rfl, hnc⟩, rfl⟩ := tilesToClear_valid_mem hmem
  dsimp only [V2.TilesToClearGraph.toSearchGraph]
  have hdist : dist s.xy g.goal ≤ dist (s.addAction (.move dir)).xy g.goal + 1 := by
    rw [addAction_move_xy]
    exact dist_move_step s.x s.y dir g.goal
  have hcost : V2.TilesToClearGraph.timeToPowerCost +
      moveOntoCost g.unitCfg (s.addAction (.move dir)).xy g.board ≤
        g.cost (.move dir) (s.addAction (.move dir)) := by
    unfold V2.TilesToClearGraph.cost
    rw [actionPowerCost_move g.unitCfg _ g.board dir hnc hm hr (hrub _)]
    linarith
  exact gdh_step V2.TilesToClearGraph.timeToPowerCost g.unitCfg g.goal g.board s.xy
    (s.addAction (.move dir)).xy _ httl hm hr (hrub _) (hrub _) hdist hcost

/-- At its goal states the tiles-to-clear heuristic is zero. -/
theorem tilesToClear_goal_bounded (g : V2.TilesToClearGraph) :
    ∀ s, g.toSearchGraph.completesGoal s = true → g.toSearchGraph.heuristic s ≤ 0 := by
  intro s h
  dsimp only [V2.TilesToClearGraph.toSearchGraph] at h ⊢
  simp only [Coordinate.pyEq, Bool.and_eq_true, beq_iff_eq] at h
  have hco : dist s.xy g.goal = 0 := by
    rw [dist_eq_zero_iff]
    exact ⟨h.1.symm, h.2.symm⟩
  unfold V2.goalDistanceHeuristic
  rw [if_pos hco]

/-- The dig-at actions are moves or the unit dig. -/
theorem digAt_potential_mem {g : V2.DigAtGraph} {c : DigTimeCoordinate} {a : UnitAction}
    (h : a ∈ g.potentialActions c) : (∃ dir, a = .move dir) ∨ a = .dig 1 := by
  unfold V2.DigAtGraph.potentialActions at h
  split at h
  · cases hmax : g.constraints.maxT with
    | none =>
        rw [hmax] at h
        rcases List.mem_append.mp h with h2 | h2
        · exact Or.inl (mem_moveActions h2)
        · simp only [List.mem_singleton] at h2
          exact Or.inr h2
    | some maxT =>
        rw [hmax] at h
        dsimp only at h
        split at h
        · simp only [List.mem_singleton] at h
          exact Or.inr h
        · rcases List.mem_append.mp h with h2 | h2
          · exact Or.inl (mem_moveActions h2)
          · simp only [List.mem_singleton] at h2
            exact Or.inr h2
  · exact Or.inl (mem_moveActions h)

/-- Decomposition of a valid action node of a dig-at graph. -/
theorem digAt_valid_mem {g : V2.DigAtGraph} {c : DigTimeCoordinate} {a : UnitAction}
    {s2 : DigTimeCoordinate} (h : (a, s2) ∈ g.toSearchGraph.validActionNodes c) :
    ((∃ dir, a = .move dir) ∨ a = .dig 1) ∧ s2 = c.addAction a := by
  dsimp only [V2.DigAtGraph.toSearchGraph] at h
  unfold V2.DigAtGraph.validActionNodes V2.filterValid at h
  have h1 := (List.mem_filter.mp h).1
  rcases mem_map_pair h1 with ⟨ha, hs⟩
  exact ⟨digAt_potential_mem ha, hs⟩

/-- The spatial projection of a dig-time move successor. -/
theorem dtc_addAction_move_xy (c : DigTimeCoordinate) (dir : Direction) :
    (c.addAction (.move dir)).xy = ⟨c.x + dir.dx * 1, c.y + dir.dy * 1⟩ := rfl

/-- Moves leave the accumulated dig count unchanged. -/
theorem dtc_addAction_move_d (c : DigTimeCoordinate) (dir : Direction) :
    (c.addAction (.move dir)).d = c.d := by
  simp [DigTimeCoordinate.addAction]

/-- The unit dig stays in place and bumps the accumulated dig count. -/
theorem dtc_addAction_dig (c : DigTimeCoordinate) :
    (c.addAction (.dig 1)).xy = c.xy ∧ (c.addAction (.dig 1)).d = c.d + 1 := by
  constructor
  · simp [DigTimeCoordinate.addAction, DigTimeCoordinate.xy, UnitAction.unitDirection,
      Direction.dx, Direction.dy, UnitAction.reps]
  · simp [DigTimeCoordinate.addAction]

/-- Consistency of the dig-at heuristic. -/
theorem digAt_consistent (g : V2.DigAtGraph)
    (hp : V2.CostParamsOk g.board g.timeToPowerCost g.unitCfg g.constraints) :
    ∀ s a s2, (a, s2) ∈ g.toSearchGraph.validActionNodes s →
      g.toSearchGraph.heuristic s ≤ g.toSearchGraph.cost a s2 + g.toSearchGraph.heuristic s2 := by
  obtain ⟨httl, hm, hr, hdig, hrub, hd⟩ := hp
  intro s a s2 hmem
  obtain ⟨hcase, rfl⟩ := digAt_valid_mem hmem
  dsimp only [V2.DigAtGraph.toSearchGraph]
  unfold V2.DigAtGraph.heuristic
  rcases hcase with ⟨dir, rfl⟩ | rfl
  · have hdeq : (s.addAction (.move dir)).d = s.d := dtc_addAction_move_d s dir
    have hdigs : g.digsMinCost (s.addAction (.move dir)) = g.digsMinCost s := by
      unfold V2.DigAtGraph.digsMinCost
      rw [hdeq]
    rw [hdigs]
    by_cases hc : dir = .center
    · subst hc
      have hxy : (s.addAction (.move .center)).xy = s.xy := by
        simp [DigTimeCoordinate.addAction, DigTimeCoordinate.xy, UnitAction.unitDirection,
          Direction.dx, Direction.dy, UnitAction.reps]
      rw [hxy]
      have hcost := graphCost_nonneg g.board g.timeToPowerCost g.unitCfg g.unitType g.constraints
        (.move .center) (s.addAction (.move .center)).toTC httl (hd _)
      linarith
    · have hdist : dist s.xy ⟨g.goal.x, g.goal.y⟩ ≤
          dist (s.addAction (.move dir)).xy ⟨g.goal.x, g.goal.y⟩ + 1 := by
        rw [dtc_addAction_move_xy]
        exact dist_move_step s.x s.y dir _
      have hcost := graphCost_move_ge g.board g.timeToPowerCost g.unitCfg g.unitType g.constraints
        dir (s.addAction (.move dir)).toTC hc hm hr (hrub _) (hd _)
      have hstep := gdh_step g.timeToPowerCost g.unitCfg ⟨g.goal.x, g.goal.y⟩ g.board s.xy
        (s.addAction (.move dir)).xy _ httl hm hr (hrub _) (hrub _) hdist hcost
      linarith
  · have hfacts := dtc_addAction_dig s
    have hxy : V2.goalDistanceHeuristic g.timeToPowerCost g.unitCfg ⟨g.goal.x, g.goal.y⟩ g.board
        (s.addAction (.dig 1)).xy =
        V2.goalDistanceHeuristic g.timeToPowerCost g.unitCfg ⟨g.goal.x, g.goal.y⟩ g.board s.xy :=
      by rw [hfacts.1]
    have hdigs : g.digsMinCost s =
        g.digsMinCost (s.addAction (.dig 1)) + (g.unitCfg.DIG_COST + g.timeToPowerCost) := by
      unfold V2.DigAtGraph.digsMinCost
      rw [hfacts.2]
      push_cast
      ring
    have hcost := graphCost_dig_ge g.board g.timeToPowerCost g.unitCfg g.unitType g.constraints
      (s.addAction (.dig 1)).toTC hdig (hd _)
    rw [hxy, hdigs]
    linarith

/-- At its goal states the dig-at heuristic is zero. -/
theorem digAt_goal_bounded (g : V2.DigAtGraph) :
    ∀ s, g.toSearchGraph.completesGoal s = true → g.toSearchGraph.heuristic s ≤ 0 := by
  intro s h
  dsimp only [V2.DigAtGraph.toSearchGraph] at h ⊢
  unfold V2.DigAtGraph.nodeCompletesGoal at h
  simp only [DigCoordinate.pyEq, Bool.and_eq_true, beq_iff_eq] at h
  unfold V2.DigAtGraph.heuristic
  have hco : dist s.xy ⟨g.goal.x, g.goal.y⟩ = 0 := by
    rw [dist_eq_zero_iff]
    exact ⟨h.1.1.symm, h.1.2.symm⟩
  have h1 : V2.goalDistanceHeuristic g.timeToPowerCost g.unitCfg ⟨g.goal.x, g.goal.y⟩ g.board
      s.xy = 0 := by
    unfold V2.goalDistanceHeuristic
    rw [if_pos hco]
  have h2 : g.digsMinCost s = 0 := by
    unfold V2.DigAtGraph.digsMinCost
    rw [h.2]
    ring
  rw [h1, h2]
  norm_num

/-- Moves leave the pick-up counter unchanged. -/
theorem rptc_addAction_move_q (c : ResourcePowerTimeCoordinate) (dir : Direction) :
    (c.addAction (.move dir)).q = c.q := by
  simp [ResourcePowerTimeCoordinate.addAction]

/-- The spatial projection of a resource-power move successor. -/
theorem rptc_addAction_move_xy (c : ResourcePowerTimeCoordinate) (dir : Direction) :
    (c.addAction (.move dir)).xy = ⟨c.x + dir.dx * 1, c.y + dir.dy * 1⟩ := rfl

/-- A pickup stays in place. -/
theorem rptc_addAction_pickup_xy (c : ResourcePowerTimeCoordinate) (amt : Int) :
    (c.addAction (.pickup amt .power)).xy = c.xy := by
  simp [ResourcePowerTimeCoordinate.addAction, ResourcePowerTimeCoordinate.xy,
    UnitAction.unitDirection, Direction.dx, Direction.dy, UnitAction.reps]

/-- A transfer stays in place. -/
theorem rptc_addAction_transfer_xy (c : ResourcePowerTimeCoordinate) (dir : Direction)
    (amt : Int) (r : Resource) : (c.addAction (.transfer dir amt r)).xy = c.xy := by
  simp [ResourcePowerTimeCoordinate.addAction, ResourcePowerTimeCoordinate.xy,
    UnitAction.unitDirection, Direction.dx, Direction.dy, UnitAction.reps]

/-- A board tile flagged as player factory tile belongs to the factory tile
list. -/
theorem mem_of_isPlayerFactoryTile {b : Board} {c : Coordinate}
    (h : b.isPlayerFactoryTile c = true) : c ∈ b.playerFactoryTiles := by
  unfold Board.isPlayerFactoryTile at h
  exact List.elem_iff.mp h

/-- Decomposition of a valid action node of a pick-up-power graph. -/
theorem pickup_valid_mem {g : V2.PickupPowerGraph} {c : ResourcePowerTimeCoordinate}
    {a : UnitAction} {s2 : ResourcePowerTimeCoordinate}
    (h : (a, s2) ∈ g.toSearchGraph.validActionNodes c) :
    ((∃ dir, a = .move dir) ∨
        ∃ amt, a = .pickup amt .power ∧ g.board.isPlayerFactoryTile c.xy = true) ∧
      s2 = c.addAction a := by
  dsimp only [V2.PickupPowerGraph.toSearchGraph] at h
  unfold V2.PickupPowerGraph.validActionNodes V2.filterValid at h
  have h1 := (List.mem_filter.mp h).1
  rcases mem_map_pair h1 with ⟨ha, hs⟩
  refine ⟨?_, hs⟩
  unfold V2.PickupPowerGraph.potentialActions at ha
  dsimp only at ha
  split at ha
  case isTrue hf =>
    split at ha
    case isTrue hz =>
      rcases List.mem_cons.mp ha with rfl | ha2
      · exact Or.inr ⟨_, rfl, hf⟩
      · rcases List.mem_map.mp ha2 with ⟨d, _, rfl⟩
        exact Or.inl ⟨d, rfl⟩
    case isFalse hz =>
      rcases List.mem_map.mp ha with ⟨d, _, rfl⟩
      exact Or.inl ⟨d, rfl⟩
  case isFalse hf =>
    rcases List.mem_map.mp ha with ⟨d, _, rfl⟩
    exact Or.inl ⟨d, rfl⟩

/-- The distance part of the pick-up heuristic without a next goal. -/
theorem pickup_distH_none (g : V2.PickupPowerGraph) (hng : g.nextGoalC = none)
    (node : Coordinate) :
    g.distanceHeuristic node =
      (dist node (g.board.closestPlayerFactoryTile node) : ℚ) *
        (g.timeToPowerCost + g.unitCfg.MOVE_COST) := by
  unfold V2.PickupPowerGraph.distanceHeuristic
  rw [hng]

/-- The pick-up heuristic is nonnegative. -/
theorem pickup_h_nonneg (g : V2.PickupPowerGraph) (node : ResourcePowerTimeCoordinate)
    (httl : 0 ≤ g.timeToPowerCost) (hm : 0 ≤ g.unitCfg.MOVE_COST) :
    0 ≤ g.heuristic node := by
  unfold V2.PickupPowerGraph.heuristic
  split
  · exact le_refl 0
  · unfold V2.PickupPowerGraph.distanceHeuristic
    have h1 : (0 : ℚ) ≤ g.timeToPowerCost + g.unitCfg.MOVE_COST := by linarith
    cases g.nextGoalC with
    | none => exact add_nonneg (mul_nonneg (Nat.cast_nonneg _) h1) httl
    | some ng =>
      exact add_nonneg
        (mul_nonneg (add_nonneg (Nat.cast_nonneg _) (Nat.cast_nonneg _)) h1) httl

/-- The pick-up cost without a next goal is the plain graph cost. -/
theorem pickup_cost_none (g : V2.PickupPowerGraph) (hng : g.nextGoalC = none) (a : UnitAction)
    (t : ResourcePowerTimeCoordinate) :
    g.cost a t =
      V2.graphCost g.board g.timeToPowerCost g.unitCfg g.unitType g.constraints a t.toTC := by
  unfold V2.PickupPowerGraph.cost
  rw [hng]

/-- Consistency of the pick-up heuristic when no next goal is set. -/
theorem pickup_consistent (g : V2.PickupPowerGraph) (hng : g.nextGoalC = none)
    (hp : V2.CostParamsOk g.board g.timeToPowerCost g.unitCfg g.constraints) :
    ∀ s a s2, (a, s2) ∈ g.toSearchGraph.validActionNodes s →
      g.toSearchGraph.heuristic s ≤ g.toSearchGraph.cost a s2 + g.toSearchGraph.heuristic s2 := by
  obtain ⟨httl, hm, hr, hdig, hrub, hd⟩ := hp
  intro s a s2 hmem
  obtain ⟨hcase, rfl⟩ := pickup_valid_mem hmem
  dsimp only [V2.PickupPowerGraph.toSearchGraph]
  rw [pickup_cost_none g hng]
  have hcost0 : 0 ≤ V2.graphCost g.board g.timeToPowerCost g.unitCfg g.unitType g.constraints a
      (s.addAction a).toTC := graphCost_nonneg _ _ _ _ _ _ _ httl (hd _)
  have hcostt : g.timeToPowerCost ≤ V2.graphCost g.board g.timeToPowerCost g.unitCfg g.unitType
      g.constraints a (s.addAction a).toTC := graphCost_ge_ttp _ _ _ _ _ _ _ (hd _)
  have hns2 := pickup_h_nonneg g (s.addAction a) httl hm
  by_cases hcs : V2.PickupPowerGraph.nodeCompletesGoal s = true
  · have h0 : g.heuristic s = 0 := by
      unfold V2.PickupPowerGraph.heuristic
      rw [if_pos hcs]
    rw [h0]
    linarith
  · have hLs : g.heuristic s = (dist s.xy (g.board.closestPlayerFactoryTile s.xy) : ℚ) *
        (g.timeToPowerCost + g.unitCfg.MOVE_COST) + g.timeToPowerCost := by
      unfold V2.PickupPowerGraph.heuristic
      rw [if_neg hcs, pickup_distH_none g hng]
    rcases hcase with ⟨dir, rfl⟩ | ⟨amt, rfl, hfac⟩
    · have hq := rptc_addAction_move_q s dir
      have hcs2 : ¬V2.PickupPowerGraph.nodeCompletesGoal (s.addAction (.move dir)) = true := by
        unfold V2.PickupPowerGraph.nodeCompletesGoal at hcs ⊢
        rw [hq]
        exact hcs
      have hLs2 : g.heuristic (s.addAction (.move dir)) =
          (dist (s.addAction (.move dir)).xy
              (g.board.closestPlayerFactoryTile (s.addAction (.move dir)).xy) : ℚ) *
            (g.timeToPowerCost + g.unitCfg.MOVE_COST) + g.timeToPowerCost := by
        unfold V2.PickupPowerGraph.heuristic
        rw [if_neg hcs2, pickup_distH_none g hng]
      rw [hLs, hLs2]
      by_cases hcc : dir = .center
      · subst hcc
        have hxy : (s.addAction (.move .center)).xy = s.xy := by
          simp [ResourcePowerTimeCoordinate.addAction, ResourcePowerTimeCoordinate.xy,
            UnitAction.unitDirection, Direction.dx, Direction.dy, UnitAction.reps]
        rw [hxy]
        linarith
      · have hlip : dist s.xy (g.board.closestPlayerFactoryTile s.xy) ≤
            dist (s.addAction (.move dir)).xy
              (g.board.closestPlayerFactoryTile (s.addAction (.move dir)).xy) + 1 := by
          have h1 := closest_dist_lipschitz g.board.playerFactoryTiles s.xy
            (s.addAction (.move dir)).xy
          have h2 : dist s.xy (s.addAction (.move dir)).xy ≤ 1 := by
            rw [rptc_addAction_move_xy]
            exact dist_move_step_le_one s.x s.y dir
          unfold Board.closestPlayerFactoryTile
          omega
        have hcostm := graphCost_move_ge g.board g.timeToPowerCost g.unitCfg g.unitType
          g.constraints dir (s.addAction (.move dir)).toTC hcc hm hr (hrub _) (hd _)
        have hu : (0 : ℚ) ≤ g.timeToPowerCost + g.unitCfg.MOVE_COST := by linarith
        have hcast : (dist s.xy (g.board.closestPlayerFactoryTile s.xy) : ℚ) ≤
            (dist (s.addAction (.move dir)).xy
              (g.board.closestPlayerFactoryTile (s.addAction (.move dir)).xy) : ℚ) + 1 := by
          exact_mod_cast hlip
        have hmono := moveOntoCost_ge g.unitCfg (s.addAction (.move dir)).toTC.xy g.board hr
          (hrub _)
        have hxyeq : (s.addAction (.move dir)).toTC.xy = (s.addAction (.move dir)).xy := rfl
        rw [hxyeq] at hcostm hmono
        nlinarith
    · have hxy := rptc_addAction_pickup_xy s amt
      have hdist0 : dist s.xy (g.board.closestPlayerFactoryTile s.xy) = 0 :=
        closest_dist_zero_of_mem (mem_of_isPlayerFactoryTile hfac)
      rw [hLs, hdist0]
      push_cast
      linarith

/-- At its goal states the pick-up heuristic is zero. -/
theorem pickup_goal_bounded (g : V2.PickupPowerGraph) :
    ∀ s, g.toSearchGraph.completesGoal s = true → g.toSearchGraph.heuristic s ≤ 0 := by
  intro s h
  dsimp only [V2.PickupPowerGraph.toSearchGraph] at h ⊢
  unfold V2.PickupPowerGraph.heuristic
  rw [if_pos h]

/-- Decomposition of a valid action node of a transfer graph. -/
theorem transfer_valid_mem {g : V2.TransferResourceGraph} {c : ResourcePowerTimeCoordinate}
    {a : UnitAction} {s2 : ResourcePowerTimeCoordinate}
    (h : (a, s2) ∈ g.toSearchGraph.validActionNodes c) :
    ((∃ dir, a = .move dir) ∨
        ∃ dir amt r, a = .transfer dir amt r ∧ g.minStepsToFactory c.xy ≤ 1) ∧
      s2 = c.addAction a := by
  dsimp only [V2.TransferResourceGraph.toSearchGraph] at h
  unfold V2.TransferResourceGraph.validActionNodes V2.filterValid at h
  have h1 := (List.mem_filter.mp h).1
  rcases mem_map_pair h1 with ⟨ha, hs⟩
  refine ⟨?_, hs⟩
  unfold V2.TransferResourceGraph.potentialActions at ha
  dsimp only at ha
  split at ha
  case isTrue hf =>
    rcases List.mem_cons.mp ha with rfl | ha2
    · exact Or.inr ⟨_, _, _, rfl, hf⟩
    · rcases List.mem_map.mp ha2 with ⟨d, _, rfl⟩
      exact Or.inl ⟨d, rfl⟩
  case isFalse hf =>
    rcases List.mem_map.mp ha with ⟨d, _, rfl⟩
    exact Or.inl ⟨d, rfl⟩

/-- The minimal factory distance is 1-Lipschitz. -/
theorem minSteps_lipschitz (g : V2.TransferResourceGraph) (c c2 : Coordinate) :
    g.minStepsToFactory c ≤ g.minStepsToFactory c2 + dist c c2 := by
  unfold V2.TransferResourceGraph.minStepsToFactory Board.minDistanceToAnyPlayerFactory
    Board.minDistanceToPlayerFactory Board.closestPlayerFactoryTile
  cases g.factory <;> exact closest_dist_lipschitz _ _ _

/-- The transfer heuristic is nonnegative. -/
theorem transfer_h_nonneg (g : V2.TransferResourceGraph) (node : ResourcePowerTimeCoordinate)
    (httl : 0 ≤ g.timeToPowerCost) (hm : 0 ≤ g.unitCfg.MOVE_COST) :
    0 ≤ g.heuristic node := by
  unfold V2.TransferResourceGraph.heuristic
  split
  · exact le_refl 0
  · unfold V2.TransferResourceGraph.distanceHeuristic
    have h1 : (0 : ℚ) ≤ g.timeToPowerCost + g.unitCfg.MOVE_COST := by linarith
    exact add_nonneg (mul_nonneg (Nat.cast_nonneg _) h1) httl

/-- Consistency of the transfer heuristic. -/
theorem transfer_consistent (g : V2.TransferResourceGraph)
    (hp : V2.CostParamsOk g.board g.timeToPowerCost g.unitCfg g.constraints) :
    ∀ s a s2, (a, s2) ∈ g.toSearchGraph.validActionNodes s →
      g.toSearchGraph.heuristic s ≤ g.toSearchGraph.cost a s2 + g.toSearchGraph.heuristic s2 := by
  obtain ⟨httl, hm, hr, hdig, hrub, hd⟩ := hp
  intro s a s2 hmem
  obtain ⟨hcase, rfl⟩ := transfer_valid_mem hmem
  dsimp only [V2.TransferResourceGraph.toSearchGraph]
  have hcost0 : 0 ≤ V2.graphCost g.board g.timeToPowerCost g.unitCfg g.unitType g.constraints a
      (s.addAction a).toTC := graphCost_nonneg _ _ _ _ _ _ _ httl (hd _)
  have hcostt : g.timeToPowerCost ≤ V2.graphCost g.board g.timeToPowerCost g.unitCfg g.unitType
      g.constraints a (s.addAction a).toTC := graphCost_ge_ttp _ _ _ _ _ _ _ (hd _)
  have hns2 := transfer_h_nonneg g (s.addAction a) httl hm
  by_cases hcs : V2.TransferResourceGraph.nodeCompletesGoal s = true
  · have h0 : g.heuristic s = 0 := by
      unfold V2.TransferResourceGraph.heuristic
      rw [if_pos hcs]
    rw [h0]
    linarith
  · have hLs : g.heuristic s = ((g.minStepsToFactory s.xy - 1 : Nat) : ℚ) *
        (g.timeToPowerCost + g.unitCfg.MOVE_COST) + g.timeToPowerCost := by
      unfold V2.TransferResourceGraph.heuristic V2.TransferResourceGraph.distanceHeuristic
      rw [if_neg hcs]
    rcases hcase with ⟨dir, rfl⟩ | ⟨dirT, amt, r, rfl, hfac⟩
    · have hq := rptc_addAction_move_q s dir
      have hcs2 :
          ¬V2.TransferResourceGraph.nodeCompletesGoal (s.addAction (.move dir)) = true := by
        unfold V2.TransferResourceGraph.nodeCompletesGoal at hcs ⊢
        rw [hq]
        exact hcs
      have hLs2 : g.heuristic (s.addAction (.move dir)) =
          ((g.minStepsToFactory (s.addAction (.move dir)).xy - 1 : Nat) : ℚ) *
            (g.timeToPowerCost + g.unitCfg.MOVE_COST) + g.timeToPowerCost := by
        unfold V2.TransferResourceGraph.heuristic V2.TransferResourceGraph.distanceHeuristic
        rw [if_neg hcs2]
      rw [hLs, hLs2]
      by_cases hcc : dir = .center
      · subst hcc
        have hxy : (s.addAction (.move .center)).xy = s.xy := by
          simp [ResourcePowerTimeCoordinate.addAction, ResourcePowerTimeCoordinate.xy,
            UnitAction.unitDirection, Direction.dx, Direction.dy, UnitAction.reps]
        rw [hxy]
        linarith
      · have hlip : g.minStepsToFactory s.xy - 1 ≤
            (g.minStepsToFactory (s.addAction (.move dir)).xy - 1) + 1 := by
          have h1 := minSteps_lipschitz g s.xy (s.addAction (.move dir)).xy
          have h2 : dist s.xy (s.addAction (.move dir)).xy ≤ 1 := by
            rw [rptc_addAction_move_xy]
            exact dist_move_step_le_one s.x s.y dir
          omega
        have hcostm := graphCost_move_ge g.board g.timeToPowerCost g.unitCfg g.unitType
          g.constraints dir (s.addAction (.move dir)).toTC hcc hm hr (hrub _) (hd _)
        have hu : (0 : ℚ) ≤ g.timeToPowerCost + g.unitCfg.MOVE_COST := by linarith
        have hcast : ((g.minStepsToFactory s.xy - 1 : Nat) : ℚ) ≤
            ((g.minStepsToFactory (s.addAction (.move dir)).xy - 1 : Nat) : ℚ) + 1 := by
          exact_mod_cast hlip
        have hmono := moveOntoCost_ge g.unitCfg (s.addAction (.move dir)).toTC.xy g.board hr
          (hrub _)
        nlinarith
    · have hxy := rptc_addAction_transfer_xy s dirT amt r
      have hzero : g.minStepsToFactory s.xy - 1 = 0 := by omega
      rw [hLs, hzero]
      push_cast
      linarith

/-- At its goal states the transfer heuristic is zero. -/
theorem transfer_goal_bounded (g : V2.TransferResourceGraph) :
    ∀ s, g.toSearchGraph.completesGoal s = true → g.toSearchGraph.heuristic s ≤ 0 := by
  intro s h
  dsimp only [V2.TransferResourceGraph.toSearchGraph] at h ⊢
  unfold V2.TransferResourceGraph.heuristic
  rw [if_pos h]

/-- **C2** (corrected) counterexample.  With a next goal set, the pick-up
heuristic anchors both legs at the factory tile closest to the unit, which
overestimates: from (5, 5) it reports 47 while walking two tiles to the other
factory at (3, 5) and picking up there costs only 35. -/
theorem pickup_next_goal_heuristic_overestimates :
    ¬V2.Admissible (V2.PickupPowerGraph.toSearchGraph cexPickupGraph) := by
  intro h
  have hmem1 : ((UnitAction.move .left), (⟨4, 5, 1, 0, 0⟩ : ResourcePowerTimeCoordinate)) ∈
      (V2.PickupPowerGraph.toSearchGraph cexPickupGraph).validActionNodes ⟨5, 5, 0, 0, 0⟩ := by
    with_unfolding_all decide
  have hmem2 : ((UnitAction.move .left), (⟨3, 5, 2, 0, 0⟩ : ResourcePowerTimeCoordinate)) ∈
      (V2.PickupPowerGraph.toSearchGraph cexPickupGraph).validActionNodes ⟨4, 5, 1, 0, 0⟩ := by
    with_unfolding_all decide
  have hmem3 : ((UnitAction.pickup 100 .power),
      (⟨3, 5, 3, 100, 1⟩ : ResourcePowerTimeCoordinate)) ∈
      (V2.PickupPowerGraph.toSearchGraph cexPickupGraph).validActionNodes ⟨3, 5, 2, 0, 0⟩ := by
    with_unfolding_all decide
  have hpath := V2.PathTo.step hmem1 (V2.PathTo.step hmem2 (V2.PathTo.step hmem3
    (V2.PathTo.refl (g := V2.PickupPowerGraph.toSearchGraph cexPickupGraph) ⟨3, 5, 3, 100, 1⟩)))
  have hle := h _ _ _ hpath (by decide)
  have hsum : (V2.PickupPowerGraph.toSearchGraph cexPickupGraph).cost (.move .left)
        ⟨4, 5, 1, 0, 0⟩ +
        ((V2.PickupPowerGraph.toSearchGraph cexPickupGraph).cost (.move .left) ⟨3, 5, 2, 0, 0⟩ +
          ((V2.PickupPowerGraph.toSearchGraph cexPickupGraph).cost (.pickup 100 .power)
              ⟨3, 5, 3, 100, 1⟩ +
            0)) = 35 := by
    with_unfolding_all decide
  have hh : (V2.PickupPowerGraph.toSearchGraph cexPickupGraph).heuristic ⟨5, 5, 0, 0, 0⟩ = 47 :=
    by with_unfolding_all decide
  rw [hsum, hh] at hle
  norm_num at hle

/-- **C2** (corrected), amended claim.  Under the game's nonnegative cost
parameters every second-generation graph variant except the pick-up-power
graph with a known next destination has an admissible heuristic: it never
exceeds the cost of any path to a goal-satisfying state.  For the evade graph
this holds from any state with a nonnegative turn (every state reachable from
a search start); for the pick-up-power graph it holds when no next goal is
set (the counterexample shows the next-goal case overestimates). -/
theorem heuristics_admissible :
    (∀ g : V2.MoveToGraph,
        V2.CostParamsOk g.board g.timeToPowerCost g.unitCfg g.constraints →
          V2.Admissible g.toSearchGraph) ∧
      (∀ g : V2.TilesToClearGraph,
        V2.CostParamsOk g.board V2.TilesToClearGraph.timeToPowerCost g.unitCfg
            Constraints.empty →
          V2.Admissible g.toSearchGraph) ∧
      (∀ g : V2.EvadeConstraintsGraph,
        V2.CostParamsOk g.board g.timeToPowerCost g.unitCfg g.constraints →
          ∀ s s2 k, 0 ≤ s.t → V2.PathTo g.toSearchGraph s s2 k →
            g.toSearchGraph.completesGoal s2 = true → g.toSearchGraph.heuristic s ≤ k) ∧
      (∀ g : V2.PickupPowerGraph, g.nextGoalC = none →
        V2.CostParamsOk g.board g.timeToPowerCost g.unitCfg g.constraints →
          V2.Admissible g.toSearchGraph) ∧
      (∀ g : V2.TransferResourceGraph,
        V2.CostParamsOk g.board g.timeToPowerCost g.unitCfg g.constraints →
          V2.Admissible g.toSearchGraph) ∧
      ∀ g : V2.DigAtGraph,
        V2.CostParamsOk g.board g.timeToPowerCost g.unitCfg g.constraints →
          V2.Admissible g.toSearchGraph := by
  refine ⟨?_, ?_, ?_, ?_, ?_, ?_⟩
  · intro g hp
    exact admissible_of_consistent _ (moveTo_consistent g hp) (moveTo_goal_bounded g)
  · intro g hp
    exact admissible_of_consistent _ (tilesToClear_consistent g hp) (tilesToClear_goal_bounded g)
  · intro g hp s s2 k ht hpath hgoal
    obtain ⟨httl, hm, hr, hdig, hrub, hd⟩ := hp
    have hk : 0 ≤ k := by
      refine pathTo_cost_nonneg g.toSearchGraph ?_ hpath
      intro s a s2 _
      exact graphCost_nonneg _ _ _ _ _ _ _ httl (hd _)
    have hh : g.toSearchGraph.heuristic s = -(s.t : ℚ) := rfl
    rw [hh]
    have : (0 : ℚ) ≤ (s.t : ℚ) := by exact_mod_cast ht
    linarith
  · intro g hng hp
    exact admissible_of_consistent _ (pickup_consistent g hng hp) (pickup_goal_bounded g)
  · intro g hp
    exact admissible_of_consistent _ (transfer_consistent g hp) (transfer_goal_bounded g)
  · intro g hp
    exact admissible_of_consistent _ (digAt_consistent g hp) (digAt_goal_bounded g)

/-- Witness for C2 (amended) at concrete graphs: the admissibility instances
applied to the trivial path at a goal-satisfying state, with the parameter
hypotheses discharged numerically. -/
theorem heuristics_admissible_witness :
    (V2.MoveToGraph.toSearchGraph mtOpenGraph).heuristic ⟨3, 3, 0⟩ ≤ 0 ∧
      (V2.PickupPowerGraph.toSearchGraph c6CexGraph).heuristic ⟨4, 4, 0, 0, 1⟩ ≤ 0 :=
  ⟨heuristics_admissible.1 mtOpenGraph
      ⟨by with_unfolding_all decide, by with_unfolding_all decide, by with_unfolding_all decide,
        by with_unfolding_all decide, fun c => le_refl 0, fun tc => le_refl 0⟩
      ⟨3, 3, 0⟩ ⟨3, 3, 0⟩ 0 (V2.PathTo.refl _) (by decide),
    heuristics_admissible.2.2.2.1 c6CexGraph rfl
      ⟨by with_unfolding_all decide, by with_unfolding_all decide, by with_unfolding_all decide,
        by with_unfolding_all decide, fun c => le_refl 0, fun tc => le_refl 0⟩
      ⟨4, 4, 0, 0, 1⟩ ⟨4, 4, 0, 0, 1⟩ 0 (V2.PathTo.refl _) (by decide)⟩

end LuxBots
